import Mathlib

/-!
# Verification of the orbit plan subsystem

A shallow embedding, in Lean 4, of the parts of the `orbit` repository that
the specification's claims are about:

* the VHDL tokenizer of `src/core/vhdl.rs` (positions, character classes,
  delimiter and keyword matching, identifier / bit-string / abstract-literal
  collection, and the top-level `tokenize` loop);
* the design-unit graph builder and top/testbench selector of
  `src/commands/plan.rs` (`build_full_graph`, `detect_bench`, `detect_top`,
  the cross-check and the blueprint emission loop of `Plan::run`).

Rust streams (`Peekable<char>`) are modelled as `List Char` consumed from the
front; every collector returns the token it produced together with the
remaining stream and the updated position.  Rust panics (`unwrap`, `expect`,
`panic!` macros and `todo!`) are modelled as `none` / a dedicated `panicked`
result: reaching one of them aborts the tokenizer or the plan, which is
exactly what the `Option`/`RunRes` value records.

Code of the repository that is *not* under `src/` (the `GraphMap` container,
the `symbol`/`subunit`/`token` modules of the symbol extractor, the
`IpFileNode` file record) is modelled from the specification; each such
definition carries a doc comment starting with `Modelled from the spec:`.
-/

namespace Vhdl

/-- `(line, col)` source position, lines starting at 1 and columns at 0
(struct `Position` of `src/core/vhdl.rs`). -/
structure Position where
  line : Nat
  col : Nat
  deriving DecidableEq, Repr

/-- `Position::new`: line 1, column 0. -/
def Position.new : Position := ⟨1, 0⟩

/-- `Position::next_col`: increment the column counter. -/
def Position.next_col (p : Position) : Position := ⟨p.line, p.col + 1⟩

/-- `Position::next_line`: increment the line counter, reset the column. -/
def Position.next_line (p : Position) : Position := ⟨p.line + 1, 0⟩

namespace char_set

/-- `char_set::is_space`: space or non-breaking space. -/
def is_space (c : Char) : Bool := c = ' ' ∨ c.toNat = 0xA0

/-- `char_set::is_digit`: `0..=9`. -/
def is_digit (c : Char) : Bool := '0' ≤ c ∧ c ≤ '9'

/-- `char_set::is_upper`: `A..Z` and Latin-1 `À..Þ`, rejecting `×` (U+00D7). -/
def is_upper (c : Char) : Bool :=
  if c.toNat = 0xD7 then false
  else ('A' ≤ c ∧ c ≤ 'Z') ∨ (0xC0 ≤ c.toNat ∧ c.toNat ≤ 0xDE)

/-- `char_set::is_lower`: `a..z` and Latin-1 `ß..ÿ`, rejecting `÷` (U+00F7). -/
def is_lower (c : Char) : Bool :=
  if c.toNat = 0xF7 then false
  else ('a' ≤ c ∧ c ≤ 'z') ∨ (0xDF ≤ c.toNat ∧ c.toNat ≤ 0xFF)

/-- `char_set::is_newline`: `\n` only. -/
def is_newline (c : Char) : Bool := c = '\n'

/-- `char_set::is_special`: the special-character set of VHDL-2008 LRM p225. -/
def is_special (c : Char) : Bool :=
  c ∈ ['"', '#', '&', '\'', '(', ')', '*', '+', ',', '-', '.', '/',
       ':', ';', '<', '=', '>', '?', '@', '[', ']', '_', '`', '|']

/-- `char_set::is_other_special`: `!$%\^` braces `~-` space plus Latin-1
`¡..¿`, `×`, `÷` (the two brace characters are written via code points). -/
def is_other_special (c : Char) : Bool :=
  c ∈ ['!', '$', '%', '\\', '^', ' ', '~', '-'] ∨
  c.toNat = 0x7B ∨ c.toNat = 0x7D ∨
  (0xA1 ≤ c.toNat ∧ c.toNat ≤ 0xBF) ∨ c.toNat = 0xD7 ∨ c.toNat = 0xF7

/-- `char_set::is_graphic`: lower, upper, digit, special, other-special or space. -/
def is_graphic (c : Char) : Bool :=
  is_lower c ∨ is_upper c ∨ is_digit c ∨ is_special c ∨ is_other_special c ∨ is_space c

/-- `char_set::is_letter`: lower or upper. -/
def is_letter (c : Char) : Bool := is_lower c ∨ is_upper c

/-- `char_set::is_separator`: space, nbsp, HT, VT, CR, LF. -/
def is_separator (c : Char) : Bool :=
  c.toNat = 0x20 ∨ c.toNat = 0xA0 ∨
  c.toNat = 0x09 ∨ c.toNat = 0x0B ∨ c.toNat = 0x0D ∨ c.toNat = 0x0A

end char_set

/-- `to_ascii_lowercase` on a character, as used by `match_keyword` and
`BaseSpec::from_str`. -/
def ascii_lower (c : Char) : Char :=
  if 'A' ≤ c ∧ c ≤ 'Z' then Char.ofNat (c.toNat + 32) else c

/-- `str::to_ascii_lowercase`. -/
def ascii_lower_str (s : String) : String := String.mk (s.data.map ascii_lower)

/-- Comment token payload (enum `Comment`). -/
inductive Comment where
  | Single (text : String)
  | Delimited (text : String)
  deriving DecidableEq, Repr

/-- Base specifiers of bit-string literals (enum `BaseSpec`):
`B|O|X|UB|UO|UX|SB|SO|SX|D`. -/
inductive BaseSpec where
  | B | O | X | UB | UO | UX | SB | SO | SX | D
  deriving DecidableEq, Repr

/-- `BaseSpec::from_str`: case-insensitive match against the ten specifiers.
The Rust implementation panics on an unknown specifier (the `Err` branch is
unreachable); the panic is modelled as `none`. -/
def BaseSpec.from_str (s : String) : Option BaseSpec :=
  match ascii_lower_str s with
  | "b" => some .B
  | "o" => some .O
  | "x" => some .X
  | "ub" => some .UB
  | "uo" => some .UO
  | "ux" => some .UX
  | "sb" => some .SB
  | "so" => some .SO
  | "sx" => some .SX
  | "d" => some .D
  | _ => none

/-- Bit-string literal payload (struct `BitStrLiteral`): optional width,
base specifier, inner literal text. -/
structure BitStrLiteral where
  width : Option Nat
  base : BaseSpec
  literal : String
  deriving DecidableEq, Repr

/-- Identifier payload of `src/core/vhdl.rs` (enum `Identifier`): basic
(case-insensitive) or extended (case-sensitive). -/
inductive Identifier where
  | Basic (s : String)
  | Extended (s : String)
  deriving DecidableEq, Repr

/-- Abstract literal payload (enum `AbstLiteral`). -/
inductive AbstLiteral where
  | Decimal (s : String)
  | Based (s : String)
  deriving DecidableEq, Repr

/-- The token alphabet (enum `VHDLToken`): classed tokens, the delimiters and
the full VHDL-2019 keyword table. -/
inductive VHDLToken where
  | Comment (note : Comment)
  | Identifier (id : Identifier)
  | AbstLiteral (a : AbstLiteral)
  | CharLiteral (c : String)
  | StrLiteral (s : String)
  | BitStrLiteral (b : BitStrLiteral)
  | EOF
  -- delimiters
  | Ampersand | SingleQuote | ParenL | ParenR | Star | Plus | Comma | Dash
  | Dot | FwdSlash | Colon | Terminator | Lt | Eq | Gt | BackTick | Pipe
  | BrackL | BrackR | Question | AtSymbol | Arrow | DoubleStar | VarAssign
  | Inequality | GTE | SigAssign | Box | SigAssoc | CondConv | MatchEQ
  | MatchNE | MatchLT | MatchLTE | MatchGT | MatchGTE | DoubleLT | DoubleGT
  -- keywords
  | Abs | Access | After | Alias | All | And | Architecture | Array | Assert
  | Assume | Attribute | Begin | Block | Body | Buffer | Bus | Case
  | Component | Configuration | Constant | Context | Cover | Default
  | Disconnect | Downto | Else | Elsif | End | Entity | Exit | Fairness
  | File | For | Force | Function | Generate | Generic | Group | Guarded
  | If | Impure | In | Inertial | Inout | Is | Label | Library | Linkage
  | Literal | Loop | Map | Mod | Nand | New | Next | Nor | Not | Null | Of
  | On | Open | Or | Others | Out | Package | Parameter | Port | Postponed
  | Private | Procedure | Process | Property | Protected | Pure | Range
  | Record | Register | Reject | Release | Rem | Report | Restrict | Return
  | Rol | Ror | Select | Sequence | Severity | Signal | Shared | Sla | Sll
  | Sra | Srl | Strong | Subtype | Then | To | Transport | Type | Unaffected
  | Units | Until | Use | Variable | View | Vmode | Vpkg | Vprop | Vunit
  | Wait | When | While | With | Xnor | Xor
  deriving BEq, Repr

/-- `VHDLToken::match_delimiter`: the delimiter table, keyed by the exact
character sequence (`!` aliased to `|`). -/
def VHDLToken.match_delimiter (s : String) : Option VHDLToken :=
  match s with
  | "&" => some .Ampersand
  | "'" => some .SingleQuote
  | "(" => some .ParenL
  | ")" => some .ParenR
  | "*" => some .Star
  | "+" => some .Plus
  | "," => some .Comma
  | "-" => some .Dash
  | "." => some .Dot
  | "/" => some .FwdSlash
  | ":" => some .Colon
  | ";" => some .Terminator
  | "<" => some .Lt
  | "=" => some .Eq
  | ">" => some .Gt
  | "`" => some .BackTick
  | "!" => some .Pipe
  | "|" => some .Pipe
  | "[" => some .BrackL
  | "]" => some .BrackR
  | "?" => some .Question
  | "@" => some .AtSymbol
  | "=>" => some .Arrow
  | "**" => some .DoubleStar
  | ":=" => some .VarAssign
  | "/=" => some .Inequality
  | ">=" => some .GTE
  | "<=" => some .SigAssign
  | "<>" => some .Box
  | "<=>" => some .SigAssoc
  | "??" => some .CondConv
  | "?=" => some .MatchEQ
  | "?/=" => some .MatchNE
  | "?<" => some .MatchLT
  | "?<=" => some .MatchLTE
  | "?>" => some .MatchGT
  | "?>=" => some .MatchGTE
  | "<<" => some .DoubleLT
  | ">>" => some .DoubleGT
  | _ => none

/-- `VHDLToken::match_keyword`: ascii-lowercase comparison against the
VHDL-2019 reserved-word table. -/
def VHDLToken.match_keyword (s : String) : Option VHDLToken :=
  match ascii_lower_str s with
  | "abs" => some .Abs
  | "access" => some .Access
  | "after" => some .After
  | "alias" => some .Alias
  | "all" => some .All
  | "and" => some .And
  | "architecture" => some .Architecture
  | "array" => some .Array
  | "assert" => some .Assert
  | "assume" => some .Assume
  | "attribute" => some .Attribute
  | "begin" => some .Begin
  | "block" => some .Block
  | "body" => some .Body
  | "buffer" => some .Buffer
  | "bus" => some .Bus
  | "case" => some .Case
  | "component" => some .Component
  | "configuration" => some .Configuration
  | "constant" => some .Constant
  | "context" => some .Context
  | "cover" => some .Cover
  | "default" => some .Default
  | "disconnect" => some .Disconnect
  | "downto" => some .Downto
  | "else" => some .Else
  | "elsif" => some .Elsif
  | "end" => some .End
  | "entity" => some .Entity
  | "exit" => some .Exit
  | "fairness" => some .Fairness
  | "file" => some .File
  | "for" => some .For
  | "force" => some .Force
  | "function" => some .Function
  | "generate" => some .Generate
  | "generic" => some .Generic
  | "group" => some .Group
  | "guarded" => some .Guarded
  | "if" => some .If
  | "impure" => some .Impure
  | "in" => some .In
  | "inertial" => some .Inertial
  | "inout" => some .Inout
  | "is" => some .Is
  | "label" => some .Label
  | "library" => some .Library
  | "linkage" => some .Linkage
  | "literal" => some .Literal
  | "loop" => some .Loop
  | "map" => some .Map
  | "mod" => some .Mod
  | "nand" => some .Nand
  | "new" => some .New
  | "next" => some .Next
  | "nor" => some .Nor
  | "not" => some .Not
  | "null" => some .Null
  | "of" => some .Of
  | "on" => some .On
  | "open" => some .Open
  | "or" => some .Or
  | "others" => some .Others
  | "out" => some .Out
  | "package" => some .Package
  | "parameter" => some .Parameter
  | "port" => some .Port
  | "postponed" => some .Postponed
  | "private" => some .Private
  | "procedure" => some .Procedure
  | "process" => some .Process
  | "property" => some .Property
  | "protected" => some .Protected
  | "pure" => some .Pure
  | "range" => some .Range
  | "record" => some .Record
  | "register" => some .Register
  | "reject" => some .Reject
  | "release" => some .Release
  | "rem" => some .Rem
  | "report" => some .Report
  | "restrict" => some .Restrict
  | "return" => some .Return
  | "rol" => some .Rol
  | "ror" => some .Ror
  | "select" => some .Select
  | "sequence" => some .Sequence
  | "severity" => some .Severity
  | "signal" => some .Signal
  | "shared" => some .Shared
  | "sla" => some .Sla
  | "sll" => some .Sll
  | "sra" => some .Sra
  | "srl" => some .Srl
  | "strong" => some .Strong
  | "subtype" => some .Subtype
  | "then" => some .Then
  | "to" => some .To
  | "transport" => some .Transport
  | "type" => some .Type
  | "unaffected" => some .Unaffected
  | "units" => some .Units
  | "until" => some .Until
  | "use" => some .Use
  | "variable" => some .Variable
  | "view" => some .View
  | "vmode" => some .Vmode
  | "vpkg" => some .Vpkg
  | "vprop" => some .Vprop
  | "vunit" => some .Vunit
  | "wait" => some .Wait
  | "when" => some .When
  | "while" => some .While
  | "with" => some .With
  | "xnor" => some .Xnor
  | "xor" => some .Xor
  | _ => none

/-- A located token (struct `Token<VHDLToken>`). -/
structure Token where
  position : Position
  ttype : VHDLToken
  deriving BEq, Repr


/-- Rust `char::is_ascii_alphabetic`. -/
def is_ascii_alphabetic (c : Char) : Bool :=
  ('a' ≤ c ∧ c ≤ 'z') ∨ ('A' ≤ c ∧ c ≤ 'Z')

/-- `usize::from_str` on a digit string (as applied to the accumulated base
digits with underscores removed); `none` models a parse failure. -/
def parse_usize (l : List Char) : Option Nat :=
  if l ≠ [] ∧ l.all char_set.is_digit then
    some (l.foldl (fun acc c => acc * 10 + (c.toNat - 0x30)) 0)
  else none

/-- `in_range`: is `c` within the extended-digit range of base `b`?  The
source panics for `10 < b` outside `11..=16`; that branch is unreachable
(the base was already checked to lie in `2..=16`) and is modelled as
`false`. -/
def in_range (b : Nat) (c : Char) : Bool :=
  let within_digit := c.toNat < 0x30 + b ∧ 0x30 ≤ c.toNat
  if b ≤ 10 then within_digit
  else
    match b with
    | 11 => within_digit ∨ ('a' ≤ c ∧ c ≤ 'a') ∨ ('A' ≤ c ∧ c ≤ 'A')
    | 12 => within_digit ∨ ('a' ≤ c ∧ c ≤ 'b') ∨ ('A' ≤ c ∧ c ≤ 'B')
    | 13 => within_digit ∨ ('a' ≤ c ∧ c ≤ 'c') ∨ ('A' ≤ c ∧ c ≤ 'C')
    | 14 => within_digit ∨ ('a' ≤ c ∧ c ≤ 'd') ∨ ('A' ≤ c ∧ c ≤ 'D')
    | 15 => within_digit ∨ ('a' ≤ c ∧ c ≤ 'e') ∨ ('A' ≤ c ∧ c ≤ 'E')
    | 16 => within_digit ∨ ('a' ≤ c ∧ c ≤ 'f') ∨ ('A' ≤ c ∧ c ≤ 'F')
    | _ => false

/-- `enclose`: gather characters until the closing bracket `br`, with `br`
doubled as an escape; panics (`none`) on a non-graphic character.  Returns
the collected text, the remaining stream and the updated position. -/
def enclose (br : Char) : List Char → Position → Option (List Char × List Char × Position)
  | [], loc => some ([], [], loc)
  | c :: rest, loc =>
    let loc := loc.next_col
    if char_set.is_graphic c = false then none
    else if c = br then
      match rest with
      | [] => some ([], [], loc)
      | c2 :: rest2 =>
        if c2 = br then
          match enclose br rest2 loc.next_col with
          | some (res, st, l) => some (c :: res, st, l)
          | none => none
        else some ([], c2 :: rest2, loc)
    else
      match enclose br rest loc with
      | some (res, st, l) => some (c :: res, st, l)
      | none => none

/-- `collect_extended_identifier`: an `enclose` between backslashes; an empty
body panics (`none`). -/
def collect_extended_identifier (stream : List Char) (loc : Position) :
    Option (VHDLToken × List Char × Position) :=
  match enclose '\\' stream loc with
  | none => none
  | some (id, st, l) =>
    if id = [] then none
    else some (.Identifier (.Extended (String.mk id)), st, l)

/-- `collect_chr_lit`: one graphic character then a closing single quote.
An empty stream yields an empty character literal (the Rust `if let` simply
falls through); a non-graphic character or a missing/incorrect closing
quote panics (`none`). -/
def collect_chr_lit (stream : List Char) (loc : Position) :
    Option (VHDLToken × List Char × Position) :=
  match stream with
  | [] => some (.CharLiteral "", [], loc)
  | c :: rest =>
    if char_set.is_graphic c = false then none
    else
      match rest with
      | [] => none
      | c2 :: rest2 =>
        if c2 = '\'' then some (.CharLiteral (String.mk [c]), rest2, loc.next_col.next_col)
        else none

/-- Loop of `collect_comment`: consume until VT, CR or LF (exclusive). -/
def collect_comment_loop : List Char → Position → List Char → VHDLToken × List Char × Position
  | [], loc, note => (.Comment (.Single (String.mk note)), [], loc)
  | c :: rest, loc, note =>
    if c.toNat = 0x0B ∨ c.toNat = 0x0D ∨ c.toNat = 0x0A then
      (.Comment (.Single (String.mk note)), c :: rest, loc)
    else collect_comment_loop rest loc.next_col (note ++ [c])

/-- `collect_comment`: skip the second `-` and take the rest of the line. -/
def collect_comment (stream : List Char) (loc : Position) :
    VHDLToken × List Char × Position :=
  collect_comment_loop stream.tail loc.next_col []

/-- Loop of `collect_delim_comment`: consume until `*/` (inclusive); the
comment is also terminated by end of stream. -/
def collect_delim_comment_loop : List Char → Position → List Char → VHDLToken × List Char × Position
  | [], loc, note => (.Comment (.Delimited (String.mk note)), [], loc)
  | c :: rest, loc, note =>
    let loc := loc.next_col
    let loc := if char_set.is_newline c then loc.next_line else loc
    if c = '*' then
      match rest with
      | c2 :: rest2 =>
        if c2 = '/' then (.Comment (.Delimited (String.mk note)), rest2, loc.next_col)
        else collect_delim_comment_loop rest loc (note ++ [c])
      | [] => (.Comment (.Delimited (String.mk (note ++ [c]))), [], loc)
    else collect_delim_comment_loop rest loc (note ++ [c])

/-- `collect_delim_comment`: skip the opening `*` and collect to `*/`. -/
def collect_delim_comment (stream : List Char) (loc : Position) :
    VHDLToken × List Char × Position :=
  collect_delim_comment_loop stream.tail loc.next_col []

/-- Final `match bit_lit` of `collect_identifier`: a bit-string literal keeps
the base collected so far and **no width**; otherwise the accumulated text is
a keyword or a basic identifier. -/
def collect_identifier_finish (id : List Char) (bitBase : Option BaseSpec) : VHDLToken :=
  match bitBase with
  | some b => .BitStrLiteral ⟨none, b, String.mk id⟩
  | none =>
    match VHDLToken.match_keyword (String.mk id) with
    | some keyword => keyword
    | none => .Identifier (.Basic (String.mk id))

/-- Loop of `collect_identifier` (basic identifier or bit-string literal):
state is the accumulated text, the base specifier once the opening quote of
a bit-string literal has been consumed, and the was-underline flag.  Double
underlines, an unrecognized base specifier, a trailing underline before the
closing quote and a missing closing quote all panic (`none`). -/
def collect_identifier_loop : List Char → Position → List Char → Option BaseSpec → Bool →
    Option (VHDLToken × List Char × Position)
  | [], loc, id, bitBase, _ => some (collect_identifier_finish id bitBase, [], loc)
  | c :: rest, loc, id, bitBase, wasUnd =>
    if (bitBase.isNone ∧ (char_set.is_letter c ∨ c = '_' ∨ char_set.is_digit c)) ∨
       (bitBase.isSome ∧ c ≠ '"' ∧ (char_set.is_graphic c ∨ c = '_')) then
      if c = '_' ∧ wasUnd then none
      else collect_identifier_loop rest loc.next_col (id ++ [c]) bitBase (c = '_')
    else if c = '"' then
      match bitBase with
      | none =>
        match BaseSpec.from_str (String.mk id) with
        | none => none
        | some base => collect_identifier_loop rest loc.next_col [] (some base) wasUnd
      | some base =>
        if wasUnd then none
        else some (.BitStrLiteral ⟨none, base, String.mk id⟩, rest, loc.next_col)
    else
      if bitBase.isSome then none
      else some (collect_identifier_finish id none, c :: rest, loc)

/-- `collect_identifier`: start from the first letter `c0`. -/
def collect_identifier (stream : List Char) (loc : Position) (c0 : Char) :
    Option (VHDLToken × List Char × Position) :=
  collect_identifier_loop stream loc [c0] none false

/-- Main loop of `collect_abst_lit`: gathers digits, underscores, a based
literal's base and extended digits, and a decimal point.  Returns the
accumulated literal, the remaining stream, the position, the base (if any)
and the was-digit flag; all panics are `none`. -/
def collect_abst_lit_loop : List Char → Position → List Char → Option Nat → Bool → Bool →
    Option Char → Option (List Char × List Char × Position × Option Nat × Bool)
  | [], loc, lit, base, _, wasDig, _ => some (lit, [], loc, base, wasDig)
  | c :: rest, loc, lit, base, dotted, wasDig, bdelim =>
    if char_set.is_digit c ∨ c = '_' ∨
       (base.isSome ∧ (is_ascii_alphabetic c ∨ char_set.is_digit c)) then
      match base with
      | some b =>
        if c ≠ '_' ∧ in_range b c = false then none
        else if c = '_' ∧ wasDig = false then none
        else collect_abst_lit_loop rest loc.next_col (lit ++ [c]) base dotted (c ≠ '_') bdelim
      | none =>
        if c = '_' ∧ wasDig = false then none
        else collect_abst_lit_loop rest loc.next_col (lit ++ [c]) base dotted (c ≠ '_') bdelim
    else if c = '#' ∨ c = ':' then
      if (match bdelim with | some d => c != d | none => false) then none
      else
        let bdelim := match bdelim with | some d => some d | none => some c
        if wasDig = false then none
        else
          match base with
          | some _ => some (lit ++ [c], rest, loc.next_col, base, wasDig)
          | none =>
            match parse_usize (lit.filter (fun x => x ≠ '_')) with
            | none => none
            | some bv =>
              if bv < 2 ∨ bv > 16 then none
              else collect_abst_lit_loop rest loc.next_col (lit ++ [c]) (some bv) dotted false bdelim
    else if c = '.' then
      if dotted then none
      else if wasDig = false then none
      else collect_abst_lit_loop rest loc.next_col (lit ++ [c]) base true false bdelim
    else some (lit, c :: rest, loc, base, wasDig)

/-- The token produced when `collect_abst_lit` finishes without handing off:
based if a base was seen, decimal otherwise. -/
def abst_lit_finish (lit : List Char) (base : Option Nat) : VHDLToken :=
  if base.isSome then .AbstLiteral (.Based (String.mk lit))
  else .AbstLiteral (.Decimal (String.mk lit))

/-- Exponent-digits loop of `collect_abst_lit`. -/
def collect_abst_lit_exp_loop : List Char → Position → List Char → Option Nat → Bool →
    Option (VHDLToken × List Char × Position)
  | [], loc, lit, base, _ => some (abst_lit_finish lit base, [], loc)
  | c :: rest, loc, lit, base, wasDig =>
    if char_set.is_digit c then
      collect_abst_lit_exp_loop rest loc.next_col (lit ++ [c]) base true
    else if c = '_' then
      if wasDig = false then none
      else collect_abst_lit_exp_loop rest loc.next_col (lit ++ [c]) base false
    else
      if wasDig = false then none
      else some (abst_lit_finish lit base, c :: rest, loc)

/-- Exponent phase of `collect_abst_lit`: a sign or digit, then digits and
underscores. -/
def collect_abst_lit_exp (stream : List Char) (loc : Position) (lit : List Char)
    (base : Option Nat) : Option (VHDLToken × List Char × Position) :=
  match stream with
  | [] => none
  | sign :: rest =>
    let loc := loc.next_col
    if sign ≠ '+' ∧ sign ≠ '-' ∧ char_set.is_digit sign = false then none
    else collect_abst_lit_exp_loop rest loc (lit ++ [sign]) base (char_set.is_digit sign)

/-- `collect_abst_lit`: an abstract literal (decimal or based).  After the
main loop, an `e`/`E` starts the exponent phase; any other ascii letter
hands off to `collect_identifier` **discarding the accumulated digits** (the
source's `@TODO somehow pass width found as lit?`), so a leading bit-string
width never reaches the literal. -/
def collect_abst_lit (stream : List Char) (loc : Position) (c0 : Char) :
    Option (VHDLToken × List Char × Position) :=
  match collect_abst_lit_loop stream loc [c0] none false true none with
  | none => none
  | some (lit, stream, loc, base, _) =>
    match stream with
    | [] => some (abst_lit_finish lit base, [], loc)
    | c :: rest =>
      if c = 'e' ∨ c = 'E' then
        collect_abst_lit_exp rest loc.next_col (lit ++ [c]) base
      else if is_ascii_alphabetic c then
        collect_identifier rest loc.next_col c
      else some (abst_lit_finish lit base, c :: rest, loc)

/-- `collect_delimiter`: greedy delimiter matching.  The accumulated text
`delim` starts from the dispatch character; after one character, `?` only
continues on `/`, `<`, `>` and `<` only on `=` (the possible three-character
delimiters); other starters try the two-character table and revert.  The
`expect("invalid token")` panics are `none`; a `delim` beyond three
characters panics. -/
def collect_delimiter : List Char → Position → List Char →
    Option (Option VHDLToken × List Char × Position)
  | [], loc, delim => some (VHDLToken.match_delimiter (String.mk delim), [], loc)
  | c :: rest, loc, delim =>
    match delim with
    | [] =>
      if c ∈ ['?', '<', '>', '/', '=', '*', ':'] then
        collect_delimiter rest loc.next_col [c]
      else
        match VHDLToken.match_delimiter (String.mk [c]) with
        | some r => some (some r, rest, loc.next_col)
        | none => some (none, c :: rest, loc)
    | [d0] =>
      if d0 = '?' then
        if c ∈ ['/', '<', '>'] then collect_delimiter rest loc.next_col [d0, c]
        else
          match VHDLToken.match_delimiter (String.mk [d0]) with
          | some t => some (some t, c :: rest, loc)
          | none => none
      else if d0 = '<' then
        if c = '=' then collect_delimiter rest loc.next_col [d0, c]
        else
          match VHDLToken.match_delimiter (String.mk [d0]) with
          | some t => some (some t, c :: rest, loc)
          | none => none
      else
        match VHDLToken.match_delimiter (String.mk [d0, c]) with
        | some op => some (some op, rest, loc.next_col)
        | none => some (VHDLToken.match_delimiter (String.mk [d0]), c :: rest, loc)
    | [d0, d1] =>
      match VHDLToken.match_delimiter (String.mk [d0, d1, c]) with
      | some op => some (some op, rest, loc.next_col)
      | none =>
        match VHDLToken.match_delimiter (String.mk [d0, d1]) with
        | some t => some (some t, c :: rest, loc)
        | none => none
    | _ => none

/-- Position bookkeeping at the bottom of the `tokenize` loop: a newline
drops to the next line. -/
def step_newline (c : Char) (loc : Position) : Position :=
  if char_set.is_newline c then loc.next_line else loc

/-- The `tokenize` loop of `impl Tokenize for VHDLTokenizer`: dispatch on the
next character, collect one token (or discard the character), and append the
final `EOF` token at end of stream.  `fuel` bounds the iteration count (one
character is consumed per iteration, so `length + 1` always suffices);
`none` models a tokenizer panic. -/
def tokenize_loop : Nat → List Char → Position → List Token → Option (List Token)
  | 0, _, _, _ => none
  | _ + 1, [], loc, acc => some (acc ++ [⟨loc.next_col, .EOF⟩])
  | fuel + 1, c :: rest, loc, acc =>
    let loc := loc.next_col
    let tk_loc := loc
    if char_set.is_letter c then
      match collect_identifier rest loc c with
      | none => none
      | some (tk, st, l) => tokenize_loop fuel st (step_newline c l) (acc ++ [⟨tk_loc, tk⟩])
    else if c = '\\' then
      match collect_extended_identifier rest loc with
      | none => none
      | some (tk, st, l) => tokenize_loop fuel st (step_newline c l) (acc ++ [⟨tk_loc, tk⟩])
    else if c = '"' then
      match enclose '"' rest loc with
      | none => none
      | some (text, st, l) =>
        tokenize_loop fuel st (step_newline c l) (acc ++ [⟨tk_loc, .StrLiteral (String.mk text)⟩])
    else if c = '\'' then
      match collect_chr_lit rest loc with
      | none => none
      | some (tk, st, l) => tokenize_loop fuel st (step_newline c l) (acc ++ [⟨tk_loc, tk⟩])
    else if char_set.is_digit c then
      match collect_abst_lit rest loc c with
      | none => none
      | some (tk, st, l) => tokenize_loop fuel st (step_newline c l) (acc ++ [⟨tk_loc, tk⟩])
    else if c = '-' ∧ rest.head? = some '-' then
      match collect_comment rest loc with
      | (tk, st, l) => tokenize_loop fuel st (step_newline c l) (acc ++ [⟨tk_loc, tk⟩])
    else if c = '/' ∧ rest.head? = some '*' then
      match collect_delim_comment rest loc with
      | (tk, st, l) => tokenize_loop fuel st (step_newline c l) (acc ++ [⟨tk_loc, tk⟩])
    else
      match collect_delimiter rest loc [c] with
      | none => none
      | some (some tk, st, l) => tokenize_loop fuel st (step_newline c l) (acc ++ [⟨tk_loc, tk⟩])
      | some (none, st, l) => tokenize_loop fuel st (step_newline c l) acc

/-- `VHDLTokenizer::tokenize` on a source string. -/
def tokenize (s : String) : Option (List Token) :=
  tokenize_loop (s.length + 1) s.data Position.new []

/-- UTF-8 byte size of one character, modelling Rust `char::len_utf8`. -/
def char_utf8_size (c : Char) : Nat :=
  if c.toNat ≤ 0x7F then 1
  else if c.toNat ≤ 0x7FF then 2
  else if c.toNat ≤ 0xFFFF then 3
  else 4

/-- UTF-8 byte length of a string, modelling Rust `str::len` (the `s0.len()`
check of `cmp_ignore_case`). -/
def utf8_len (s : String) : Nat := (s.data.map char_utf8_size).sum

/-- Models Rust `char::to_lowercase` (the full Unicode lowering, which may
expand to several characters) on the repertoire used in this development:
ASCII letters and the Latin-1 letters lower by adding 32 (`×` U+00D7 and
`÷` U+00F7 are not letters and are unchanged, `ß` and the other Latin-1
characters without an upper case map to themselves), `İ` U+0130 lowers to
`i` followed by a combining dot above, and the Kelvin sign `K` U+212A
lowers to `k`; every other character is left unchanged. -/
def char_to_lowercase (c : Char) : List Char :=
  if 0x41 ≤ c.toNat ∧ c.toNat ≤ 0x5A then [Char.ofNat (c.toNat + 32)]
  else if c.toNat = 0xD7 ∨ c.toNat = 0xF7 then [c]
  else if 0xC0 ≤ c.toNat ∧ c.toNat ≤ 0xDE then [Char.ofNat (c.toNat + 32)]
  else if c.toNat = 0x130 then [Char.ofNat 0x69, Char.ofNat 0x307]
  else if c.toNat = 0x212A then [Char.ofNat 0x6B]
  else [c]

/-- The Unicode lowercase fold of a whole string (concatenation of the
per-character lowerings); the reference point the claim about identifier
equality is measured against. -/
def lower_fold (s : String) : List Char := s.data.flatMap char_to_lowercase

/-- Character loop of `cmp_ignore_case`: walk `s0`, pull the matching
character of `s1` with `next().unwrap()` (which panics — `none` — when `s1`
is exhausted first), and compare the two lowercase expansions. -/
def cmp_ignore_case_loop : List Char → List Char → Option Bool
  | [], _ => some true
  | _ :: _, [] => none
  | c :: cs, d :: ds =>
    if char_to_lowercase c = char_to_lowercase d then cmp_ignore_case_loop cs ds
    else some false

/-- `cmp_ignore_case`: equal UTF-8 byte lengths first, then the
character-by-character lowercase comparison. -/
def cmp_ignore_case (s0 s1 : String) : Option Bool :=
  if utf8_len s0 ≠ utf8_len s1 then some false
  else cmp_ignore_case_loop s0.data s1.data

/-- `Identifier::is_extended`. -/
def Identifier.is_extended : Identifier → Bool
  | .Extended _ => true
  | .Basic _ => false

/-- `Identifier::as_str`. -/
def Identifier.as_str : Identifier → String
  | .Basic s => s
  | .Extended s => s

/-- `impl PartialEq for Identifier`: different kinds are never equal;
extended identifiers compare case-sensitively; basic identifiers compare
through `cmp_ignore_case` (whose panic is modelled as `none`). -/
def identifier_eq (a b : Identifier) : Option Bool :=
  if a.is_extended ≠ b.is_extended then some false
  else if a.is_extended then some (a.as_str = b.as_str)
  else cmp_ignore_case a.as_str b.as_str

end Vhdl

namespace Vhdl

lemma char_toNat_ofNat {n : Nat} (h : n.isValidChar) : (Char.ofNat n).toNat = n := by
  unfold Char.ofNat
  rw [dif_pos h]
  unfold Char.ofNatAux
  simp [Char.toNat, UInt32.toNat, BitVec.toNat_ofNatLt]

lemma char_utf8_size_pos (c : Char) : 0 < char_utf8_size c := by
  unfold char_utf8_size
  split_ifs <;> norm_num

lemma char_to_lowercase_ne_nil (c : Char) : char_to_lowercase c ≠ [] := by
  unfold char_to_lowercase
  split_ifs <;> simp

/-- On the Latin-1 repertoire the Unicode lowering is a single character of
the same UTF-8 byte size. -/
lemma latin1_lower_single (c : Char) (h : c.toNat ≤ 0xFF) :
    ∃ d : Char, char_to_lowercase c = [d] ∧ char_utf8_size d = char_utf8_size c := by
  unfold char_to_lowercase
  split_ifs with h1 h2 h3 h4 h5
  · -- ASCII upper: add 32
    refine ⟨Char.ofNat (c.toNat + 32), rfl, ?_⟩
    have hv : (c.toNat + 32).isValidChar := Or.inl (by omega)
    unfold char_utf8_size
    rw [char_toNat_ofNat hv]
    split_ifs <;> omega
  · exact ⟨c, rfl, rfl⟩
  · -- Latin-1 upper: add 32
    refine ⟨Char.ofNat (c.toNat + 32), rfl, ?_⟩
    have hv : (c.toNat + 32).isValidChar := Or.inl (by omega)
    unfold char_utf8_size
    rw [char_toNat_ofNat hv]
    split_ifs <;> omega
  · omega
  · omega
  · exact ⟨c, rfl, rfl⟩

lemma sum_utf8_eq_zero_iff (xs : List Char) :
    ((xs.map char_utf8_size).sum = 0) ↔ xs = [] := by
  cases xs with
  | nil => simp
  | cons c cs =>
    simp only [List.map_cons, List.sum_cons]
    constructor
    · intro h
      have := char_utf8_size_pos c
      omega
    · intro h
      exact absurd h (by simp)

/-- The byte-length check plus the pointwise lowercase loop of
`cmp_ignore_case` agrees, on Latin-1 character lists, with equality of the
concatenated lowercase folds. -/
lemma cmp_loop_latin1 :
    ∀ (xs ys : List Char), (∀ c ∈ xs, c.toNat ≤ 0xFF) → (∀ c ∈ ys, c.toNat ≤ 0xFF) →
      (((xs.map char_utf8_size).sum = (ys.map char_utf8_size).sum ∧
        cmp_ignore_case_loop xs ys = some true)
       ↔ xs.flatMap char_to_lowercase = ys.flatMap char_to_lowercase) := by
  intro xs
  induction xs with
  | nil =>
    intro ys _ _
    simp only [List.map_nil, List.sum_nil, List.flatMap_nil, cmp_ignore_case_loop]
    constructor
    · intro ⟨hs, _⟩
      have : ys = [] := (sum_utf8_eq_zero_iff ys).mp hs.symm
      simp [this]
    · intro h
      cases ys with
      | nil => simp
      | cons d ds =>
        exfalso
        have hne := char_to_lowercase_ne_nil d
        simp only [List.flatMap_cons] at h
        exact hne (List.append_eq_nil.mp h.symm).1
  | cons c cs ih =>
    intro ys hxs hys
    cases ys with
    | nil =>
      simp only [cmp_ignore_case_loop]
      constructor
      · intro ⟨_, h⟩
        exact absurd h (by simp)
      · intro h
        exfalso
        have hne := char_to_lowercase_ne_nil c
        simp only [List.flatMap_cons, List.flatMap_nil] at h
        exact hne (List.append_eq_nil.mp h).1
    | cons d ds =>
      have hc : c.toNat ≤ 0xFF := hxs c (by simp)
      have hd : d.toNat ≤ 0xFF := hys d (by simp)
      obtain ⟨c1, hc1, hc1s⟩ := latin1_lower_single c hc
      obtain ⟨d1, hd1, hd1s⟩ := latin1_lower_single d hd
      have hcs' : ∀ x ∈ cs, x.toNat ≤ 0xFF := fun x hx => hxs x (by simp [hx])
      have hds' : ∀ x ∈ ds, x.toNat ≤ 0xFF := fun x hx => hys x (by simp [hx])
      simp only [List.map_cons, List.sum_cons, List.flatMap_cons, cmp_ignore_case_loop,
        hc1, hd1]
      by_cases h11 : c1 = d1
      · have hsz : char_utf8_size c = char_utf8_size d := by
          rw [← hc1s, ← hd1s, h11]
        rw [if_pos (by rw [h11])]
        constructor
        · intro ⟨hsum, hloop⟩
          have hsum2 : (cs.map char_utf8_size).sum = (ds.map char_utf8_size).sum := by omega
          have := (ih ds hcs' hds').mp ⟨hsum2, hloop⟩
          simp [h11, this]
        · intro h
          simp only [List.cons_append, List.nil_append, h11, List.cons.injEq, true_and] at h
          have := (ih ds hcs' hds').mpr h
          exact ⟨by omega, this.2⟩
      · rw [if_neg (by simp [h11])]
        constructor
        · intro ⟨_, h⟩
          exact absurd h (by simp)
        · intro h
          exfalso
          simp only [List.cons_append, List.nil_append, List.cons.injEq] at h
          exact h11 h.1

end Vhdl

namespace Vhdl

/-- **C10, counterexample.**  The claim states that equality of two `Basic`
identifiers *is* case-insensitive equality under the Unicode lowercase fold.
The Kelvin sign U+212A refutes it: its Unicode lowercase fold is `k`, so the
fold of `"K"` and of `"k"` coincide, yet `PartialEq` returns `false`
because `cmp_ignore_case` first compares UTF-8 byte lengths (3 versus 1). -/
theorem claim_C10_counterexample :
    identifier_eq (.Basic (String.mk [Char.ofNat 0x212A])) (.Basic "k") = some false ∧
    lower_fold (String.mk [Char.ofNat 0x212A]) = lower_fold "k" := by
  constructor
  · rfl
  · rfl

/-- **C10 (amended).**  Identifier equality discriminates on identifier
kind: `Basic s` never equals `Extended t`; equality of two `Extended`
identifiers is exact string equality; and equality of two `Basic`
identifiers first requires equal UTF-8 byte lengths and then compares the
characters pointwise under the Unicode lowercase mapping — which, on
strings of Latin-1 characters, coincides with case-insensitive equality
under the Unicode lowercase fold. -/
theorem claim_C10_identifier_equality :
    (∀ s t : String, identifier_eq (.Basic s) (.Extended t) = some false ∧
        identifier_eq (.Extended s) (.Basic t) = some false) ∧
    (∀ s t : String, identifier_eq (.Extended s) (.Extended t) = some true ↔ s = t) ∧
    (∀ s t : String, (∀ c ∈ s.data, c.toNat ≤ 0xFF) → (∀ c ∈ t.data, c.toNat ≤ 0xFF) →
        (identifier_eq (.Basic s) (.Basic t) = some true ↔ lower_fold s = lower_fold t)) := by
  refine ⟨?_, ?_, ?_⟩
  · intro s t
    constructor <;> rfl
  · intro s t
    simp [identifier_eq, Identifier.is_extended, Identifier.as_str]
  · intro s t hs ht
    have key := cmp_loop_latin1 s.data t.data hs ht
    simp only [identifier_eq, Identifier.is_extended, Identifier.as_str, if_neg, ite_false,
      if_false, Bool.false_eq_true, ne_eq, not_false_eq_true, reduceIte]
    unfold cmp_ignore_case lower_fold
    by_cases hlen : utf8_len s ≠ utf8_len t
    · rw [if_pos hlen]
      constructor
      · intro h
        exact absurd h (by simp)
      · intro h
        exfalso
        apply hlen
        have := key.mpr h
        unfold utf8_len
        exact this.1
    · rw [if_neg hlen]
      push_neg at hlen
      constructor
      · intro h
        exact key.mp ⟨hlen, h⟩
      · intro h
        exact (key.mpr h).2

/-- **C10, witness** for the hypotheses of the amended theorem: on the
Latin-1 strings `"Fa"` and `"fa"` the Unicode folds agree, hence the code's
equality returns `true`. -/
theorem claim_C10_identifier_equality_witness :
    identifier_eq (.Basic "Fa") (.Basic "fa") = some true :=
  (claim_C10_identifier_equality.2.2 "Fa" "fa" (by decide) (by decide)).mpr (by rfl)

/-- **C2.**  Evaluation of the tokenizer at the failing and the working
two-character delimiters.  The four delimiters `??`, `?=`, `<>`, `<<` each
lex as **two** one-character tokens (refuting the claim that every
two-character delimiter of the table lexes as a single token), because after
an initial `?` the collector only continues on `/`, `<`, `>` and after an
initial `<` only on `=`; the remaining two- and three-character delimiters
do lex as single tokens. -/
theorem claim_C2_delimiter_tokens :
    tokenize "??" = some [⟨⟨1, 1⟩, .Question⟩, ⟨⟨1, 2⟩, .Question⟩, ⟨⟨1, 3⟩, .EOF⟩] ∧
    tokenize "?=" = some [⟨⟨1, 1⟩, .Question⟩, ⟨⟨1, 2⟩, .Eq⟩, ⟨⟨1, 3⟩, .EOF⟩] ∧
    tokenize "<>" = some [⟨⟨1, 1⟩, .Lt⟩, ⟨⟨1, 2⟩, .Gt⟩, ⟨⟨1, 3⟩, .EOF⟩] ∧
    tokenize "<<" = some [⟨⟨1, 1⟩, .Lt⟩, ⟨⟨1, 2⟩, .Lt⟩, ⟨⟨1, 3⟩, .EOF⟩] ∧
    tokenize "=>" = some [⟨⟨1, 1⟩, .Arrow⟩, ⟨⟨1, 3⟩, .EOF⟩] ∧
    tokenize "**" = some [⟨⟨1, 1⟩, .DoubleStar⟩, ⟨⟨1, 3⟩, .EOF⟩] ∧
    tokenize "/=" = some [⟨⟨1, 1⟩, .Inequality⟩, ⟨⟨1, 3⟩, .EOF⟩] ∧
    tokenize ">=" = some [⟨⟨1, 1⟩, .GTE⟩, ⟨⟨1, 3⟩, .EOF⟩] ∧
    tokenize "<=" = some [⟨⟨1, 1⟩, .SigAssign⟩, ⟨⟨1, 3⟩, .EOF⟩] ∧
    tokenize ">>" = some [⟨⟨1, 1⟩, .DoubleGT⟩, ⟨⟨1, 3⟩, .EOF⟩] ∧
    tokenize "?<" = some [⟨⟨1, 1⟩, .MatchLT⟩, ⟨⟨1, 3⟩, .EOF⟩] ∧
    tokenize "?>" = some [⟨⟨1, 1⟩, .MatchGT⟩, ⟨⟨1, 3⟩, .EOF⟩] ∧
    tokenize ":=" = some [⟨⟨1, 1⟩, .VarAssign⟩, ⟨⟨1, 3⟩, .EOF⟩] ∧
    tokenize "<=>" = some [⟨⟨1, 1⟩, .SigAssoc⟩, ⟨⟨1, 4⟩, .EOF⟩] ∧
    tokenize "?/=" = some [⟨⟨1, 1⟩, .MatchNE⟩, ⟨⟨1, 4⟩, .EOF⟩] ∧
    tokenize "?<=" = some [⟨⟨1, 1⟩, .MatchLTE⟩, ⟨⟨1, 4⟩, .EOF⟩] ∧
    tokenize "?>=" = some [⟨⟨1, 1⟩, .MatchGTE⟩, ⟨⟨1, 4⟩, .EOF⟩] :=
  ⟨rfl, rfl, rfl, rfl, rfl, rfl, rfl, rfl, rfl, rfl, rfl, rfl, rfl, rfl, rfl, rfl, rfl⟩

/-- **C6.**  Evaluation of the tokenizer at bit-string literals written with
a leading integer width.  The emitted `BitStrLiteral` has `width = none` in
both cases: `collect_abst_lit` hands off to `collect_identifier` without
passing the accumulated digits (the source's
`@TODO somehow pass width found as lit?`), refuting the claim that the
width field retains the parsed integer. -/
theorem claim_C6_bit_str_width_dropped :
    tokenize "10b\"10_1001_1111\"" =
      some [⟨⟨1, 1⟩, .BitStrLiteral ⟨none, .B, "10_1001_1111"⟩⟩, ⟨⟨1, 18⟩, .EOF⟩] ∧
    tokenize "12sx\"F-\"" =
      some [⟨⟨1, 1⟩, .BitStrLiteral ⟨none, .SX, "F-"⟩⟩, ⟨⟨1, 9⟩, .EOF⟩] :=
  ⟨rfl, rfl⟩

end Vhdl

namespace Plan

/-- Modelled from the spec: the identifier type of the `token` module (the
module `core/vhdl/token.rs` used by `plan.rs` is not under `src/`): basic
identifiers compare case-insensitively under a Latin-1-aware fold, extended
identifiers compare exactly. -/
inductive Identifier where
  | Basic (s : String)
  | Extended (s : String)
  deriving DecidableEq, Repr

/-- Modelled from the spec: the Latin-1-aware lower-casing fold used for
basic-identifier equality (ASCII `A..Z` and Latin-1 `À..Þ` except `×` lower
by adding 32). -/
def latin1_low (c : Char) : Char :=
  if (0x41 ≤ c.toNat ∧ c.toNat ≤ 0x5A) ∨
     (0xC0 ≤ c.toNat ∧ c.toNat ≤ 0xDE ∧ c.toNat ≠ 0xD7) then Char.ofNat (c.toNat + 32)
  else c

/-- Modelled from the spec: equality of `token` identifiers. -/
def iden_beq : Identifier → Identifier → Bool
  | .Basic s, .Basic t => s.data.map latin1_low == t.data.map latin1_low
  | .Extended s, .Extended t => s == t
  | _, _ => false

/-- The text of an identifier (`Display`). -/
def iden_str : Identifier → String
  | .Basic s => s
  | .Extended s => s

/-- Modelled from the spec: `CompoundIdentifier` of the `symbol` module — an
optional library prefix and a unit-name suffix (`CompoundIdentifier::new`
always stores a present prefix; dependency records may carry none).  The
field names avoid the words prefix/suffix for syntactic reasons only. -/
structure CompoundIdentifier where
  pfx : Option Identifier
  sfx : Identifier
  deriving DecidableEq, Repr

/-- Modelled from the spec: equality of compound identifiers — componentwise,
with basic-identifier case rules. -/
def cid_beq (a b : CompoundIdentifier) : Bool :=
  (match a.pfx, b.pfx with
   | some x, some y => iden_beq x y
   | none, none => true
   | _, _ => false) && iden_beq a.sfx b.sfx

/-- Modelled from the spec: an entity record of the `symbol` module.  An
entity is a testbench iff its port list is empty. -/
structure Entity where
  name : Identifier
  ports : List Identifier
  refs : List CompoundIdentifier
  deriving DecidableEq, Repr

/-- `Entity::is_testbench`: empty port list. -/
def Entity.is_testbench (e : Entity) : Bool := e.ports.isEmpty

/-- The primary design units that `build_full_graph` inserts as graph nodes
(entities, packages and contexts; architectures, configurations and package
bodies are diverted before insertion). -/
inductive PrimaryUnit where
  | entity (e : Entity)
  | package (name : Identifier) (refs : List CompoundIdentifier)
  | context (name : Identifier) (refs : List CompoundIdentifier)
  deriving DecidableEq, Repr

/-- `VHDLSymbol::as_entity`. -/
def PrimaryUnit.as_entity : PrimaryUnit → Option Entity
  | .entity e => some e
  | _ => none

/-- `VHDLSymbol::as_iden`: the unit's name (total on primary units). -/
def PrimaryUnit.as_iden : PrimaryUnit → Identifier
  | .entity e => e.name
  | .package n _ => n
  | .context n _ => n

/-- `VHDLSymbol::get_refs`. -/
def PrimaryUnit.get_refs : PrimaryUnit → List CompoundIdentifier
  | .entity e => e.refs
  | .package _ rs => rs
  | .context _ rs => rs

/-- `VHDLSymbol::add_refs`: append references (used when merging a package
body into its owner). -/
def PrimaryUnit.add_refs : PrimaryUnit → List CompoundIdentifier → PrimaryUnit
  | .entity e, extra => .entity { e with refs := e.refs ++ extra }
  | .package n rs, extra => .package n (rs ++ extra)
  | .context n rs, extra => .context n (rs ++ extra)

/-- Modelled from the spec: a sub-unit (architecture or configuration) of
the `subunit` module: owner entity name, instantiation dependencies
(`get_edges`) and reference calls (`get_refs`). -/
structure SubUnit where
  entity : Identifier
  edges : List CompoundIdentifier
  refs : List CompoundIdentifier
  deriving DecidableEq, Repr

/-- Modelled from the spec: a package body: owner package name and
references. -/
structure PackageBody where
  owner : Identifier
  refs : List CompoundIdentifier
  deriving DecidableEq, Repr

/-- The payloads produced by the symbol extractor for one file, as matched
by `build_full_graph` (`symbol::VHDLSymbol`). -/
inductive VHDLSymbol where
  | Entity (e : Entity)
  | Package (name : Identifier) (refs : List CompoundIdentifier)
  | Context (name : Identifier) (refs : List CompoundIdentifier)
  | Architecture (a : SubUnit)
  | Configuration (c : SubUnit)
  | PackageBody (pb : PackageBody)
  deriving DecidableEq, Repr

/-- Modelled from the spec: an IP file node (`core/ip.rs` is not under
`src/`): a path, the owning library, and the delegated `is_sim`
classification (each file has a boolean `is_sim`; the exact filename
classifier is an external collaborator). -/
structure IpFileNode where
  file : String
  library : Identifier
  sim : Bool
  deriving DecidableEq, Repr

/-- Equality of file nodes (the `contains` check of `HdlNode::add_file`). -/
def ipf_beq (a b : IpFileNode) : Bool :=
  a.file == b.file && iden_beq a.library b.library && a.sim == b.sim

/-- `is_rtl`: a file is RTL iff it is not simulation-only (classifier
delegated per the spec). -/
def is_rtl (f : IpFileNode) : Bool := !f.sim

/-- `HdlNode`: a primary design unit together with its associated files in
insertion order. -/
structure HdlNode where
  sym : PrimaryUnit
  files : List IpFileNode
  deriving DecidableEq, Repr

/-- `HdlNode::new`. -/
def HdlNode.new (sym : PrimaryUnit) (file : IpFileNode) : HdlNode := ⟨sym, [file]⟩

/-- `HdlNode::add_file`: append if not already present. -/
def HdlNode.add_file (n : HdlNode) (ipf : IpFileNode) : HdlNode :=
  if n.files.any (fun x => ipf_beq x ipf) then n else { n with files := n.files ++ [ipf] }

/-- Modelled from the spec: the `GraphMap` container (`util/graphmap.rs` is
not under `src/`).  Nodes are stored in insertion order as
(compound-identifier key, payload) pairs indexed by stable integer ids;
edges carry no payload and are stored as index pairs `(dependency, user)`
matching the argument order of `add_edge_by_key(dep, user)`. -/
structure GraphMap (α : Type) where
  items : List (CompoundIdentifier × α)
  edges : List (Nat × Nat)
  deriving DecidableEq, Repr

/-- The empty graph. -/
def GraphMap.new {α : Type} : GraphMap α := ⟨[], []⟩

/-- First index whose key compares equal to `k` (auxiliary walker). -/
def key_index_aux {α : Type} : List (CompoundIdentifier × α) → CompoundIdentifier → Nat → Option Nat
  | [], _, _ => none
  | p :: rest, k, acc => if cid_beq p.1 k then some acc else key_index_aux rest k (acc + 1)

/-- Index of the node stored under key `k`, if any. -/
def GraphMap.key_index {α : Type} (g : GraphMap α) (k : CompoundIdentifier) : Option Nat :=
  key_index_aux g.items k 0

/-- Payload at index `i`. -/
def GraphMap.node_at {α : Type} (g : GraphMap α) (i : Nat) : Option α :=
  (g.items[i]?).map (·.2)

/-- Key at index `i` (`get_key_by_index`). -/
def GraphMap.key_at {α : Type} (g : GraphMap α) (i : Nat) : Option CompoundIdentifier :=
  (g.items[i]?).map (·.1)

/-- `get_node_by_key`: the index and payload stored under `k`. -/
def GraphMap.get_node_by_key {α : Type} (g : GraphMap α) (k : CompoundIdentifier) :
    Option (Nat × α) :=
  match g.key_index k with
  | some i => (g.items[i]?).map (fun p => (i, p.2))
  | none => none

/-- `add_node`: map-like insertion — replace the payload if the key is
already present (keeping the stored key), else append a new node. -/
def GraphMap.add_node {α : Type} (g : GraphMap α) (k : CompoundIdentifier) (v : α) :
    GraphMap α :=
  match g.key_index k with
  | some i =>
    match g.items[i]? with
    | some p => { g with items := g.items.set i (p.1, v) }
    | none => g
  | none => { g with items := g.items ++ [(k, v)] }

/-- Replace the payload at index `i` (used when merging references and
files into an existing node). -/
def GraphMap.set_node {α : Type} (g : GraphMap α) (i : Nat) (v : α) : GraphMap α :=
  match g.items[i]? with
  | some p => { g with items := g.items.set i (p.1, v) }
  | none => g

/-- `add_edge_by_key(dep, user)`: add the edge only when **both** endpoint
keys resolve to nodes (a dependency whose target cannot be resolved is
dropped, not errored); edge insertion is idempotent. -/
def GraphMap.add_edge_by_key {α : Type} (g : GraphMap α) (k1 k2 : CompoundIdentifier) :
    GraphMap α :=
  match g.key_index k1, g.key_index k2 with
  | some i, some j =>
    if (i, j) ∈ g.edges then g else { g with edges := g.edges ++ [(i, j)] }
  | _, _ => g

/-- Direct successors along the stored `(dependency, user)` orientation. -/
def GraphMap.direct_succ {α : Type} (g : GraphMap α) (i : Nat) : List Nat :=
  (g.edges.filter (fun e => e.1 == i)).map (·.2)

/-- Reachability by a non-empty path, with fuel bounding the path length. -/
def reachable_fuel {α : Type} : Nat → GraphMap α → Nat → Nat → Bool
  | 0, _, _, _ => false
  | fuel + 1, g, i, j => (g.direct_succ i).any (fun k => k == j || reachable_fuel fuel g k j)

/-- Modelled from the spec: `j` is a (transitive) successor of `i` — `i` is
transitively instantiated by `j`.  Fuel `items.length` covers every simple
path. -/
def GraphMap.reachable {α : Type} (g : GraphMap α) (i j : Nat) : Bool :=
  reachable_fuel g.items.length g i j

/-- Modelled from the spec: `Graph::successors` — the units that
transitively depend on `i`, in index order. -/
def GraphMap.successors_list {α : Type} (g : GraphMap α) (i : Nat) : List Nat :=
  (List.range g.items.length).filter (fun j => g.reachable i j)

/-- Modelled from the spec: `Graph::predecessors` — the units `i`
transitively depends on, in index order. -/
def GraphMap.predecessors_list {α : Type} (g : GraphMap α) (i : Nat) : List Nat :=
  (List.range g.items.length).filter (fun j => g.reachable j i)

/-- Modelled from the spec: a root of the graph — a node on which no other
node depends (in-degree zero in the spec's orientation, where edges point
from a unit to the units using it; with the stored `(dependency, user)`
pairs that is: no outgoing pair). -/
def GraphMap.is_root {α : Type} (g : GraphMap α) (i : Nat) : Bool :=
  g.edges.all (fun e => e.1 != i)

/-- All root indices, in index order. -/
def GraphMap.root_indices {α : Type} (g : GraphMap α) : List Nat :=
  (List.range g.items.length).filter (fun i => g.is_root i)

/-- Modelled from the spec: `find_root` — the unique root on success,
otherwise the full root list (possibly empty) as the error value. -/
def GraphMap.find_root {α : Type} (g : GraphMap α) : Except (List Nat) Nat :=
  match g.root_indices with
  | [r] => .ok r
  | rs => .error rs

/-- New index of old index `i` in the restriction of `g` by `p` (number of
kept items before it), defined when item `i` is kept. -/
def old_to_new {α : Type} (g : GraphMap α) (p : CompoundIdentifier → Bool) (i : Nat) :
    Option Nat :=
  match g.items[i]? with
  | some q => if p q.1 then some (((g.items.take i).filter (fun r => p r.1)).length) else none
  | none => none

/-- Modelled from the spec: restriction of the graph to the nodes whose key
satisfies `p` (the `iter().filter(..).collect()` shallow copy of
`detect_bench`): kept nodes are re-indexed in order, and an edge survives
when both endpoints are kept. -/
def GraphMap.restrict {α : Type} (g : GraphMap α) (p : CompoundIdentifier → Bool) :
    GraphMap α :=
  ⟨g.items.filter (fun q => p q.1),
   g.edges.filterMap (fun e =>
     match old_to_new g p e.1, old_to_new g p e.2 with
     | some a, some b => some (a, b)
     | _, _ => none)⟩

/-- A node `i` is ready for emission when each of its dependencies (edges
into `i`) is already emitted. -/
def ready {α : Type} (g : GraphMap α) (done : List Nat) (i : Nat) : Bool :=
  g.edges.all (fun e => e.2 != i || done.contains e.1)

/-- Kahn-style topological sort with deterministic tie-break on index
order; `fuel` bounds the iterations (one node is emitted per round). -/
def kahn {α : Type} : Nat → GraphMap α → List Nat → List Nat → List Nat
  | 0, _, done, todo => done ++ todo
  | fuel + 1, g, done, todo =>
    match todo.filter (ready g done) with
    | [] => done ++ todo
    | x :: _ => kahn fuel g (done ++ [x]) (todo.erase x)

/-- Modelled from the spec: topological sort of the whole graph,
dependencies first, deterministic tie-break on insertion order. -/
def GraphMap.topological_sort {α : Type} (g : GraphMap α) : List Nat :=
  kahn g.items.length g [] (List.range g.items.length)

/-- Modelled from the spec: minimal topological sort seeded from `seed` —
the subgraph of units the seed transitively depends on (plus the seed), in
topological order. -/
def GraphMap.minimal_topological_sort {α : Type} (g : GraphMap α) (seed : Nat) : List Nat :=
  g.topological_sort.filter (fun i => i == seed || g.reachable i seed)

end Plan

namespace Plan

/-- The plan-level errors (enum `PlanError` of `src/commands/plan.rs`). -/
inductive PlanError where
  | BadTestbench (id : Identifier)
  | BadTop (id : Identifier)
  | BadEntity (id : Identifier)
  | TestbenchNoTest (id : Identifier)
  | UnknownUnit (id : Identifier)
  | UnknownEntity (id : Identifier)
  | Ambiguous (what : String) (candidates : List Identifier)
  | Empty
  deriving DecidableEq, Repr

/-- Result of a step of `Plan::run`: success, a `PlanError`, a formatted
`AnyError` message, or a Rust panic (an `unwrap`/`expect` failure). -/
inductive RunRes (α : Type) where
  | ok (a : α)
  | err (e : PlanError)
  | errmsg (s : String)
  | panicked
  deriving DecidableEq, Repr

/-- Modelled from the spec: `Identifier::new_working()` — the literal
working library `work`. -/
def working_lib : Identifier := .Basic "work"

/-- The node filter of `detect_bench`'s natural-selection path: keep nodes
whose key prefix equals the working library. -/
def working_filter (wl : Identifier) (k : CompoundIdentifier) : Bool :=
  match k.pfx with
  | some iden => iden_beq iden wl
  | none => false

/-- `Plan::detect_bench`: with a user-supplied bench name, resolve
`(work, t)` and demand a testbench entity; with neither bench nor top
supplied, restrict the graph to the working library and inspect its unique
root; otherwise leave both unset. -/
def detect_bench (bench top : Option Identifier) (g : GraphMap HdlNode)
    (wl : Identifier) : RunRes (Option Nat × Option Nat) :=
  match bench with
  | some t =>
    match g.get_node_by_key ⟨some wl, t⟩ with
    | some (idx, node) =>
      match node.sym.as_entity with
      | some e =>
        if e.is_testbench = false then .err (.BadTestbench t)
        else .ok (none, some idx)
      | none => .err (.BadEntity t)
    | none => .err (.UnknownEntity t)
  | none =>
    if top.isNone then
      let shallow := g.restrict (working_filter wl)
      match shallow.find_root with
      | .ok n =>
        match shallow.key_at n with
        | none => .panicked
        | some k =>
          match g.get_node_by_key k with
          | none => .panicked
          | some (i, node) =>
            match node.sym.as_entity with
            | some ent =>
              if ent.is_testbench then .ok (none, some i) else .ok (some i, none)
            | none => .ok (none, none)
      | .error e =>
        match e with
        | [] => .ok (none, none)
        | _ =>
          .err (.Ambiguous "roots"
            (e.filterMap (fun r => (shallow.node_at r).map (fun nd => nd.sym.as_iden))))
    else .ok (none, none)

/-- The testbench scan of `detect_top`: walk the successors of the chosen
top and keep those whose symbol — unwrapped as an entity, **panicking**
(`none`) when a successor is not an entity — is a testbench. -/
def scan_benches (g : GraphMap HdlNode) : List Nat → Option (List Nat)
  | [] => some []
  | f :: rest =>
    match (g.node_at f).bind (fun nd => nd.sym.as_entity) with
    | none => none
    | some e =>
      match scan_benches g rest with
      | none => none
      | some bs => if e.is_testbench then some (f :: bs) else some bs

/-- `Plan::detect_top`: with a user-supplied top name, resolve `(work, t)`
and demand a non-testbench entity, then (if no bench yet) scan its
successors for a unique testbench; otherwise adopt the natural top; failing
that, with a bench set, scan the bench's entity predecessors for a unique
test subject. -/
def detect_top (top : Option Identifier) (g : GraphMap HdlNode) (wl : Identifier)
    (natural_top bench0 : Option Nat) : RunRes (Option Nat × Option Nat) :=
  match top with
  | some t =>
    match g.get_node_by_key ⟨some wl, t⟩ with
    | none => .err (.UnknownEntity t)
    | some (n, node) =>
      match node.sym.as_entity with
      | none => .err (.BadEntity t)
      | some e =>
        if e.is_testbench then .err (.BadTop t)
        else
          match bench0 with
          | some b => .ok (some n, some b)
          | none =>
            match scan_benches g (g.successors_list n) with
            | none => .panicked
            | some benches =>
              match benches with
              | [] => .ok (some n, none)
              | [b] => .ok (some n, some b)
              | _ =>
                .err (.Ambiguous "testbenches"
                  (benches.filterMap (fun f => (g.key_at f).map (·.sfx))))
  | none =>
    match natural_top with
    | some nt => .ok (some nt, bench0)
    | none =>
      match bench0 with
      | none => .ok (none, none)
      | some b =>
        let entities := (g.predecessors_list b).filterMap
          (fun f => (g.node_at f).bind (fun nd => nd.sym.as_entity.map (fun e => (f, e))))
        match entities with
        | [] =>
          match g.key_at b with
          | some k => .err (.TestbenchNoTest k.sfx)
          | none => .panicked
        | [p] => .ok (some p.1, some b)
        | _ =>
          .err (.Ambiguous "entities instantiated in the testbench"
            (entities.filterMap (fun p => (g.key_at p.1).map (·.sfx))))

/-- One HDL line of the blueprint: `VHDL-RTL`/`VHDL-SIM`, the library and
the path, tab-separated with a trailing newline. -/
def blueprint_line (f : IpFileNode) : String :=
  (if is_rtl f then "VHDL-RTL" else "VHDL-SIM") ++ "\t" ++ iden_str f.library ++
    "\t" ++ f.file ++ "\n"

/-- The file-gathering loop of `Plan::run`: for each node of the sorted
order, append its associated files (the source unwraps
`get_node_by_index`, which cannot fail on indices produced by the sort). -/
def file_order (g : GraphMap HdlNode) (min_order : List Nat) : List IpFileNode :=
  min_order.foldl
    (fun acc i => acc ++ (match g.node_at i with | some nd => nd.files | none => [])) []

/-- The `AnyError` message of the cross-check (the stored key lookups
cannot fail on indices held in `top`/`bench`). -/
def cross_msg (g : GraphMap HdlNode) (t b : Nat) : String :=
  "top unit '" ++ (match g.key_at t with | some k => iden_str k.sfx | none => "") ++
  "' is not tested in testbench '" ++
  (match g.key_at b with | some k => iden_str k.sfx | none => "") ++
  "'\n\nIf you wish to continue, add the `--all` flag"

/-- The pure content of a successful plan: the chosen units, the sorted
node order, the gathered file order and the HDL blueprint lines. -/
structure PlanOutput where
  top : Option Nat
  bench : Option Nat
  order : List Nat
  files : List IpFileNode
  lines : List String
  deriving DecidableEq, Repr

/-- The ordering and emission tail of `Plan::run` (after the cross-check):
topological sort of the whole graph under `--all`, else a minimal sort
seeded from bench if set, otherwise from top via an **unchecked unwrap**
(`top.unwrap()` — `panicked` when both are unset); then gather the files
and format the HDL blueprint lines. -/
def emit_rest (g : GraphMap HdlNode) (top bench : Option Nat) (all : Bool) :
    RunRes PlanOutput :=
  let morder : Option (List Nat) :=
    if all then some g.topological_sort
    else
      match bench with
      | some b => some (g.minimal_topological_sort b)
      | none =>
        match top with
        | some t => some (g.minimal_topological_sort t)
        | none => none
  match morder with
  | none => .panicked
  | some order =>
    let fo := file_order g order
    .ok ⟨top, bench, order, fo, fo.map blueprint_line⟩

/-- The cross-check and emission of `Plan::run` (lines 517-541 and onward):
with a bench chosen and `--all` false, the user's top — `top.unwrap()`,
panicking when unset — must have the bench among its successors, otherwise
the run fails with the `AnyError` directing the user to `--all`, **before**
any blueprint is produced. -/
def emit_phase (g : GraphMap HdlNode) (top bench : Option Nat) (all : Bool) :
    RunRes PlanOutput :=
  match bench with
  | some b =>
    if all = false then
      match top with
      | none => .panicked
      | some t =>
        if (g.successors_list t).contains b = false then .errmsg (cross_msg g t b)
        else emit_rest g top bench all
    else emit_rest g top bench all
  | none => emit_rest g top bench all

/-- The `--all` override around a selection step: an `Ambiguous` error is
swallowed (yielding the fallback indices) when `--all` is set. -/
def swallow_ambiguous (all : Bool) (fallback : Option Nat × Option Nat) :
    RunRes (Option Nat × Option Nat) → RunRes (Option Nat × Option Nat)
  | .err (.Ambiguous w c) => if all then .ok fallback else .err (.Ambiguous w c)
  | r => r

/-- The pure selection-and-emission pipeline of `Plan::run`: `detect_bench`,
`detect_top` (each with the `--all` ambiguity override), the cross-check
and the emission tail. -/
def plan_run (g : GraphMap HdlNode) (user_top user_bench : Option Identifier)
    (all : Bool) : RunRes PlanOutput :=
  match swallow_ambiguous all (none, none) (detect_bench user_bench user_top g working_lib) with
  | .ok (t0, b0) =>
    match swallow_ambiguous all (t0, b0) (detect_top user_top g working_lib t0 b0) with
    | .ok (top, bench) => emit_phase g top bench all
    | .err e => .err e
    | .errmsg m => .errmsg m
    | .panicked => .panicked
  | .err e => .err e
  | .errmsg m => .errmsg m
  | .panicked => .panicked

end Plan

namespace Plan

/-- A sub-unit held aside during pass 1 together with its defining file
(struct `SubUnitNode`). -/
structure SubUnitNode where
  sub : SubUnit
  file : IpFileNode
  deriving DecidableEq, Repr

/-- Modelled from the spec: one input file with its owning library and the
design units the `VHDLParser` extracts from its contents (the parser lives
in the `symbol` module, which is not under `src/`; the parsed units stand
in for the file text). -/
structure SourceFile where
  file : IpFileNode
  symbols : List VHDLSymbol
  deriving DecidableEq, Repr

/-- Insert into the component map (`HashMap<Identifier, Identifier>` keyed
with case-insensitive identifier equality; last writer wins). -/
def cp_insert (m : List (Identifier × Identifier)) (k v : Identifier) :
    List (Identifier × Identifier) :=
  (k, v) :: m.filter (fun p => !(iden_beq p.1 k))

/-- Component-map lookup. -/
def cp_get (m : List (Identifier × Identifier)) (k : Identifier) : Option Identifier :=
  (m.find? (fun p => iden_beq p.1 k)).map (·.2)

/-- The traversal state of pass 1 of `build_full_graph`. -/
structure BuildState where
  graph : GraphMap HdlNode
  sub_nodes : List (Identifier × SubUnitNode)
  bodies : List (Identifier × PackageBody)
  component_pairs : List (Identifier × Identifier)

/-- Pass 1, one symbol: entities (recording their component pair), packages
and contexts become nodes; architectures and configurations are held aside
as sub-nodes; package bodies are held aside. -/
def pass1_symbol (lib : Identifier) (sf : IpFileNode) (st : BuildState)
    (sym : VHDLSymbol) : BuildState :=
  match sym with
  | .Entity e =>
    { st with
      component_pairs := cp_insert st.component_pairs e.name lib,
      graph := st.graph.add_node ⟨some lib, e.name⟩ (HdlNode.new (.entity e) sf) }
  | .Package n rs =>
    { st with graph := st.graph.add_node ⟨some lib, n⟩ (HdlNode.new (.package n rs) sf) }
  | .Context n rs =>
    { st with graph := st.graph.add_node ⟨some lib, n⟩ (HdlNode.new (.context n rs) sf) }
  | .Architecture a =>
    { st with sub_nodes := st.sub_nodes ++ [(lib, ⟨a, sf⟩)] }
  | .Configuration c =>
    { st with sub_nodes := st.sub_nodes ++ [(lib, ⟨c, sf⟩)] }
  | .PackageBody pb =>
    { st with bodies := st.bodies ++ [(lib, pb)] }

/-- Pass 1, one file: fold its symbols in order. -/
def pass1_file (st : BuildState) (src : SourceFile) : BuildState :=
  src.symbols.foldl (pass1_symbol src.file.library src.file) st

/-- Pass 2, one package body: merge its references into the owner package's
node; silently skip a dangling body. -/
def pass2_body (g : GraphMap HdlNode) (entry : Identifier × PackageBody) :
    GraphMap HdlNode :=
  match g.get_node_by_key ⟨some entry.1, entry.2.owner⟩ with
  | some (i, nd) => g.set_node i { nd with sym := nd.sym.add_refs entry.2.refs }
  | none => g

/-- Pass 3, one sub-node: find the owner entity (silently skip if absent),
append the sub-node's file, then add one edge per dependency — resolving a
prefix-less component name through the component map and dropping it when
absent — and one edge per reference call. -/
def pass3_sub (cp : List (Identifier × Identifier)) (g : GraphMap HdlNode)
    (entry : Identifier × SubUnitNode) : GraphMap HdlNode :=
  let lib := entry.1
  let node := entry.2
  let node_name : CompoundIdentifier := ⟨some lib, node.sub.entity⟩
  match g.get_node_by_key node_name with
  | none => g
  | some (i, en) =>
    let g := g.set_node i (en.add_file node.file)
    let g := node.sub.edges.foldl (fun g dep =>
      match dep.pfx with
      | none =>
        match cp_get cp dep.sfx with
        | some lib2 => g.add_edge_by_key ⟨some lib2, dep.sfx⟩ node_name
        | none => g
      | some _ => g.add_edge_by_key dep node_name) g
    node.sub.refs.foldl (fun g dep => g.add_edge_by_key dep node_name) g

/-- Pass 4: for every node (keys snapshot taken first), add one edge per
entry of its symbol's reference list; missing targets are dropped inside
`add_edge_by_key`.  (The source's `get_node_by_key(..).unwrap()` cannot
fail: the key was just taken from the map.) -/
def pass4 (g : GraphMap HdlNode) : GraphMap HdlNode :=
  (g.items.map (·.1)).foldl (fun g iden =>
    match g.get_node_by_key iden with
    | some (_, nd) => nd.sym.get_refs.foldl (fun g dep => g.add_edge_by_key dep iden) g
    | none => g) g

/-- `Plan::build_full_graph`: pass 1 over all files, then package bodies,
then sub-nodes, then reference edges. -/
def build_full_graph (files : List SourceFile) : GraphMap HdlNode :=
  let st := files.foldl pass1_file ⟨GraphMap.new, [], [], []⟩
  let g := st.bodies.foldl pass2_body st.graph
  let g := st.sub_nodes.foldl (pass3_sub st.component_pairs) g
  pass4 g

/-- Every edge endpoint is the index of an existing node. -/
def edges_valid {α : Type} (g : GraphMap α) : Bool :=
  g.edges.all (fun e => e.1 < g.items.length && e.2 < g.items.length)

end Plan

namespace Plan

/-- The files associated with node `i` (empty for an invalid index, which
the sort never produces). -/
def node_files (g : GraphMap HdlNode) (i : Nat) : List IpFileNode :=
  match g.node_at i with
  | some nd => nd.files
  | none => []

lemma key_index_aux_bound {α : Type} :
    ∀ (l : List (CompoundIdentifier × α)) (k : CompoundIdentifier) (acc i : Nat),
      key_index_aux l k acc = some i → i < acc + l.length := by
  intro l
  induction l with
  | nil => intro k acc i h; simp [key_index_aux] at h
  | cons p rest ih =>
    intro k acc i h
    unfold key_index_aux at h
    by_cases hb : cid_beq p.1 k
    · rw [if_pos hb] at h
      cases h
      simp
    · rw [if_neg hb] at h
      have := ih k (acc + 1) i h
      simp only [List.length_cons]
      omega

lemma key_index_lt {α : Type} {g : GraphMap α} {k : CompoundIdentifier} {i : Nat}
    (h : g.key_index k = some i) : i < g.items.length := by
  have := key_index_aux_bound g.items k 0 i h
  omega

/-- Bool-level reading of `edges_valid`. -/
lemma edges_valid_iff {α : Type} (g : GraphMap α) :
    edges_valid g = true ↔ ∀ e ∈ g.edges, e.1 < g.items.length ∧ e.2 < g.items.length := by
  simp [edges_valid, List.all_eq_true]

lemma add_node_items_length {α : Type} (g : GraphMap α) (k : CompoundIdentifier) (v : α) :
    g.items.length ≤ (g.add_node k v).items.length := by
  unfold GraphMap.add_node
  cases h : g.key_index k with
  | none => simp
  | some i =>
    cases hg : g.items[i]? with
    | none => simp [hg]
    | some p => simp [hg]

lemma add_node_edges {α : Type} (g : GraphMap α) (k : CompoundIdentifier) (v : α) :
    (g.add_node k v).edges = g.edges := by
  unfold GraphMap.add_node
  cases h : g.key_index k with
  | none => rfl
  | some i =>
    cases hg : g.items[i]? with
    | none => simp [hg]
    | some p => simp [hg]

lemma edges_valid_add_node {α : Type} {g : GraphMap α} (k : CompoundIdentifier) (v : α)
    (h : edges_valid g = true) : edges_valid (g.add_node k v) = true := by
  rw [edges_valid_iff] at h ⊢
  intro e he
  rw [add_node_edges] at he
  have := h e he
  have hlen := add_node_items_length g k v
  omega

lemma set_node_items_length {α : Type} (g : GraphMap α) (i : Nat) (v : α) :
    (g.set_node i v).items.length = g.items.length := by
  unfold GraphMap.set_node
  cases h : g.items[i]? with
  | none => simp [h]
  | some p => simp [h]

lemma set_node_edges {α : Type} (g : GraphMap α) (i : Nat) (v : α) :
    (g.set_node i v).edges = g.edges := by
  unfold GraphMap.set_node
  cases h : g.items[i]? with
  | none => simp [h]
  | some p => simp [h]

lemma edges_valid_set_node {α : Type} {g : GraphMap α} (i : Nat) (v : α)
    (h : edges_valid g = true) : edges_valid (g.set_node i v) = true := by
  rw [edges_valid_iff] at h ⊢
  intro e he
  rw [set_node_edges] at he
  rw [set_node_items_length]
  exact h e he

lemma edges_valid_add_edge {α : Type} {g : GraphMap α} (k1 k2 : CompoundIdentifier)
    (h : edges_valid g = true) : edges_valid (g.add_edge_by_key k1 k2) = true := by
  unfold GraphMap.add_edge_by_key
  cases h1 : g.key_index k1 with
  | none => exact h
  | some i =>
    cases h2 : g.key_index k2 with
    | none => exact h
    | some j =>
      dsimp only
      by_cases hmem : (i, j) ∈ g.edges
      · rw [if_pos hmem]; exact h
      · rw [if_neg hmem]
        rw [edges_valid_iff] at h ⊢
        intro e he
        simp only [List.mem_append, List.mem_singleton] at he
        cases he with
        | inl hin => exact h e hin
        | inr heq =>
          subst heq
          exact ⟨key_index_lt h1, key_index_lt h2⟩

lemma foldl_preserve {β σ : Type} (P : σ → Prop) (f : σ → β → σ)
    (hstep : ∀ s b, P s → P (f s b)) :
    ∀ (l : List β) (s : σ), P s → P (l.foldl f s) := by
  intro l
  induction l with
  | nil => intro s hs; exact hs
  | cons b rest ih => intro s hs; exact ih (f s b) (hstep s b hs)

lemma edges_valid_pass1_symbol {lib : Identifier} {sf : IpFileNode} {st : BuildState}
    (sym : VHDLSymbol) (h : edges_valid st.graph = true) :
    edges_valid ((pass1_symbol lib sf st sym).graph) = true := by
  cases sym with
  | Entity e => exact edges_valid_add_node _ _ h
  | Package n rs => exact edges_valid_add_node _ _ h
  | Context n rs => exact edges_valid_add_node _ _ h
  | Architecture a => exact h
  | Configuration c => exact h
  | PackageBody pb => exact h

lemma edges_valid_pass2_body {g : GraphMap HdlNode} (entry : Identifier × PackageBody)
    (h : edges_valid g = true) : edges_valid (pass2_body g entry) = true := by
  unfold pass2_body
  cases hk : g.get_node_by_key ⟨some entry.1, entry.2.owner⟩ with
  | none => simp only [hk]; exact h
  | some p => simp only [hk]; exact edges_valid_set_node _ _ h

lemma edges_valid_pass3_sub {cp : List (Identifier × Identifier)} {g : GraphMap HdlNode}
    (entry : Identifier × SubUnitNode) (h : edges_valid g = true) :
    edges_valid (pass3_sub cp g entry) = true := by
  obtain ⟨lib, node⟩ := entry
  unfold pass3_sub
  dsimp only
  cases hk : g.get_node_by_key ⟨some lib, node.sub.entity⟩ with
  | none => simp only [hk]; exact h
  | some p =>
    simp only [hk]
    obtain ⟨i, en⟩ := p
    refine foldl_preserve (fun g => edges_valid g = true) _ ?_ _ _
      (foldl_preserve (fun g => edges_valid g = true) _ ?_ _ _ (edges_valid_set_node _ _ h))
    · intro s dep hs
      exact edges_valid_add_edge _ _ hs
    · intro s dep hs
      dsimp only
      split
      · split
        · exact edges_valid_add_edge _ _ hs
        · exact hs
      · exact edges_valid_add_edge _ _ hs

lemma edges_valid_pass4 {g : GraphMap HdlNode} (h : edges_valid g = true) :
    edges_valid (pass4 g) = true := by
  unfold pass4
  refine foldl_preserve (fun g => edges_valid g = true) _ ?_ _ _ h
  intro s iden hs
  cases hk : s.get_node_by_key iden with
  | none => simp only [hk]; exact hs
  | some p =>
    simp only [hk]
    exact foldl_preserve (fun g => edges_valid g = true) _
      (fun s dep hs => edges_valid_add_edge _ _ hs) _ _ hs

/-- **C7.**  For any input file list, every edge of the graph produced by
`build_full_graph` terminates at an existing node (both endpoints are
indices of stored nodes): an unresolvable dependency — including an
unqualified component name absent from the component map — is dropped
inside `add_edge_by_key`/`pass3_sub` without creating an edge, and the
builder is total (no error path exists). -/
theorem claim_C7_edges_valid (files : List SourceFile) :
    edges_valid (build_full_graph files) = true := by
  have hp1 : ∀ (st : BuildState) (src : SourceFile), edges_valid st.graph = true →
      edges_valid (pass1_file st src).graph = true := by
    intro st src hst
    unfold pass1_file
    exact foldl_preserve (fun (st : BuildState) => edges_valid st.graph = true)
      _ (fun st sym hst => edges_valid_pass1_symbol sym hst) _ _ hst
  have h1 : edges_valid (files.foldl pass1_file ⟨GraphMap.new, [], [], []⟩).graph = true :=
    foldl_preserve (fun (st : BuildState) => edges_valid st.graph = true) _ hp1 files _ rfl
  have h2 := foldl_preserve (fun g => edges_valid g = true) _
    (fun g e hg => edges_valid_pass2_body e hg)
    (files.foldl pass1_file ⟨GraphMap.new, [], [], []⟩).bodies _ h1
  have h3 := foldl_preserve (fun g => edges_valid g = true) _
    (fun g e hg =>
      @edges_valid_pass3_sub
        (files.foldl pass1_file ⟨GraphMap.new, [], [], []⟩).component_pairs _ e hg)
    (files.foldl pass1_file ⟨GraphMap.new, [], [], []⟩).sub_nodes _ h2
  exact edges_valid_pass4 h3

end Plan

namespace Plan

/-- The claim's description of Step A with a user-supplied bench name,
stated in its own words (for comparison with `detect_bench`): resolve
`(work, t)`; absent key fails `UnknownEntity`; a non-entity fails
`BadEntity`; an entity with a non-empty port list fails `BadTestbench`;
otherwise bench is the node's index and no top is chosen. -/
def spec_bench_named (g : GraphMap HdlNode) (wl t : Identifier) :
    RunRes (Option Nat × Option Nat) :=
  match g.get_node_by_key ⟨some wl, t⟩ with
  | none => .err (.UnknownEntity t)
  | some (i, nd) =>
    match nd.sym with
    | .entity e => if e.ports.isEmpty then .ok (none, some i) else .err (.BadTestbench t)
    | _ => .err (.BadEntity t)

/-- **C4.**  With a user-supplied bench name the selector behaves exactly as
the claim describes, for every graph and every (ignored) user top. -/
theorem claim_C4_bench_named (g : GraphMap HdlNode) (t : Identifier)
    (ut : Option Identifier) :
    detect_bench (some t) ut g working_lib = spec_bench_named g working_lib t := by
  unfold detect_bench spec_bench_named
  dsimp only
  cases hk : g.get_node_by_key ⟨some working_lib, t⟩ with
  | none => simp only [hk]
  | some p =>
    obtain ⟨i, nd⟩ := p
    simp only [hk]
    cases hs : nd.sym with
    | entity e =>
      simp only [hs, PrimaryUnit.as_entity, Entity.is_testbench]
      by_cases he : e.ports.isEmpty = true
      · simp [he]
      · rw [Bool.not_eq_true] at he
        simp [he]
    | package n rs => simp [hs, PrimaryUnit.as_entity]
    | context n rs => simp [hs, PrimaryUnit.as_entity]

lemma contains_filter_range (n j : Nat) (p : Nat → Bool) :
    ((List.range n).filter p).contains j = (decide (j < n) && p j) := by
  by_cases hj : j < n
  · by_cases hp : p j
    · have : j ∈ (List.range n).filter p := by
        rw [List.mem_filter, List.mem_range]
        exact ⟨hj, hp⟩
      simp [List.contains, List.elem_eq_mem, this, hj, hp]
    · have : j ∉ (List.range n).filter p := by
        rw [List.mem_filter]
        intro hmem
        exact absurd hmem.2 (by simpa using hp)
      simp only [List.contains, List.elem_eq_mem, decide_eq_true_eq]
      simp [this, hj, hp]
  · have : j ∉ (List.range n).filter p := by
      rw [List.mem_filter, List.mem_range]
      intro hmem
      exact hj hmem.1
    simp only [List.contains, List.elem_eq_mem]
    simp [this, hj]

/-- **C5.**  With `--all` false and both a top and a bench index chosen, the
emission phase fails — with the `AnyError` message directing the user to
`--all`, and before producing any blueprint — precisely when the bench is
not among the successors of the top; being among the successors is
transitive reachability (bench transitively instantiates top); and when the
bench is reachable the run proceeds past the cross-check and emits. -/
theorem claim_C5_cross_check (g : GraphMap HdlNode) (i j : Nat) :
    (emit_phase g (some i) (some j) false = .errmsg (cross_msg g i j) ↔
      (g.successors_list i).contains j = false) ∧
    ((g.successors_list i).contains j = (decide (j < g.items.length) && g.reachable i j)) ∧
    ((g.successors_list i).contains j = true →
      ∃ out, emit_phase g (some i) (some j) false = .ok out) := by
  refine ⟨?_, ?_, ?_⟩
  · unfold emit_phase
    dsimp only
    by_cases hc : (g.successors_list i).contains j = false
    · rw [if_pos hc]
      simp only [List.contains, List.elem_eq_mem, decide_eq_false_iff_not] at hc
      simp [hc]
    · rw [if_neg hc]
      constructor
      · intro h
        unfold emit_rest at h
        simp at h
      · intro h
        exact absurd h hc
  · exact contains_filter_range _ _ _
  · intro hc
    unfold emit_phase
    dsimp only
    rw [if_pos (show false = false from rfl)]
    rw [if_neg (show ¬((g.successors_list i).contains j = false) by rw [hc]; simp)]
    exact ⟨_, rfl⟩

end Plan

namespace Plan

lemma emit_rest_ok {g : GraphMap HdlNode} {top bench : Option Nat} {all : Bool}
    {out : PlanOutput} (h : emit_rest g top bench all = .ok out) :
    out.top = top ∧ out.bench = bench ∧
    out.files = file_order g out.order ∧ out.lines = out.files.map blueprint_line ∧
    out.order = (if all then g.topological_sort
      else g.minimal_topological_sort ((bench.or top).getD 0)) := by
  unfold emit_rest at h
  cases all with
  | true =>
    simp only [if_true] at h
    cases h
    simp
  | false =>
    simp only [if_false, Bool.false_eq_true] at h
    cases bench with
    | some b =>
      dsimp only at h
      cases h
      simp [Option.or]
    | none =>
      cases top with
      | some t =>
        dsimp only at h
        cases h
        simp [Option.or]
      | none =>
        dsimp only at h
        cases h

lemma emit_phase_ok {g : GraphMap HdlNode} {top bench : Option Nat} {all : Bool}
    {out : PlanOutput} (h : emit_phase g top bench all = .ok out) :
    emit_rest g top bench all = .ok out := by
  unfold emit_phase at h
  cases hb : bench with
  | none => subst hb; exact h
  | some b =>
    subst hb
    dsimp only at h
    by_cases hall : all = false
    · subst hall
      simp only [if_pos (show false = false from rfl)] at h
      cases ht : top with
      | none => subst ht; cases h
      | some t =>
        subst ht
        dsimp only at h
        by_cases hc : (g.successors_list t).contains b = false
        · rw [if_pos hc] at h
          cases h
        · rw [if_neg hc] at h
          exact h
    · have : all = true := by
        cases all
        · exact absurd rfl hall
        · rfl
      subst this
      simp only [if_neg (show ¬(true = false) by simp)] at h
      exact h

lemma plan_run_ok {g : GraphMap HdlNode} {ut ub : Option Identifier} {all : Bool}
    {out : PlanOutput} (h : plan_run g ut ub all = .ok out) :
    emit_rest g out.top out.bench all = .ok out := by
  unfold plan_run at h
  split at h
  · split at h
    · next heq =>
      have := emit_phase_ok h
      have hfields := emit_rest_ok this
      rw [← hfields.1, ← hfields.2.1] at this
      exact this
    · cases h
    · cases h
    · cases h
  · cases h
  · cases h
  · cases h

/-- **C9.**  With `--all` false the emitter seeds the minimal sort from
bench, else from top, through an unchecked unwrap: (a) every successful
run has a top or a bench resolved; (b) for a project whose working-library
restriction has no in-degree-zero root at all — for example no design unit
in the working library — both stay unset and the plan aborts by panic
instead of returning a section-7 error. -/
theorem claim_C9_unwrap_panic :
    (∀ (g : GraphMap HdlNode) (ut ub : Option Identifier) (out : PlanOutput),
       plan_run g ut ub false = .ok out → out.top.isSome ∨ out.bench.isSome) ∧
    (∀ g : GraphMap HdlNode,
       (g.restrict (working_filter working_lib)).root_indices = [] →
       plan_run g none none false = .panicked) := by
  constructor
  · intro g ut ub out h
    have hrest := plan_run_ok h
    cases ht : out.top with
    | some t => exact Or.inl (by simp [ht])
    | none =>
      cases hb : out.bench with
      | some b => exact Or.inr (by simp [hb])
      | none =>
        rw [ht, hb] at hrest
        unfold emit_rest at hrest
        simp only [if_false, Bool.false_eq_true] at hrest
        cases hrest
  · intro g h
    have hfr : (g.restrict (working_filter working_lib)).find_root = .error [] := by
      unfold GraphMap.find_root
      rw [h]
    unfold plan_run detect_bench
    dsimp only
    rw [hfr]
    rfl

/-- **C3.**  For every successful plan, the HDL blueprint lines are exactly
one line per (node, file) membership — the files of each node of the chosen
topological subset, mapped to their `VHDL-RTL`/`VHDL-SIM` line — ordered by
the topological node order and, within a node, by the node's stored
file-insertion order; the subset is the whole graph under `--all` and the
minimal subset seeded from bench (else top) otherwise. -/
theorem claim_C3_blueprint_lines (g : GraphMap HdlNode) (ut ub : Option Identifier)
    (all : Bool) (out : PlanOutput) (h : plan_run g ut ub all = .ok out) :
    out.lines = out.order.flatMap (fun i => (node_files g i).map blueprint_line) ∧
    out.order = (if all then g.topological_sort
      else g.minimal_topological_sort (((out.bench).or out.top).getD 0)) := by
  have hrest := emit_rest_ok (plan_run_ok h)
  obtain ⟨-, -, hfiles, hlines, horder⟩ := hrest
  constructor
  · rw [hlines, hfiles]
    have hfo : ∀ (l : List Nat) (acc : List IpFileNode),
        l.foldl (fun acc i => acc ++ (match g.node_at i with
          | some nd => nd.files
          | none => [])) acc = acc ++ l.flatMap (node_files g) := by
      intro l
      induction l with
      | nil => intro acc; simp
      | cons i rest ih =>
        intro acc
        simp only [List.foldl_cons, List.flatMap_cons, ih, node_files]
        simp
    unfold file_order
    rw [hfo]
    simp [List.map_flatMap]
  · exact horder

end Plan

namespace Plan

/-- No two stored keys compare equal (the graph is a map). -/
def keys_nodup {α : Type} : List (CompoundIdentifier × α) → Bool
  | [] => true
  | p :: rest => rest.all (fun q => !(cid_beq q.1 p.1)) && keys_nodup rest

lemma iden_beq_refl (a : Identifier) : iden_beq a a = true := by
  cases a <;> simp [iden_beq]

lemma cid_beq_refl (k : CompoundIdentifier) : cid_beq k k = true := by
  obtain ⟨pfx, sfx⟩ := k
  unfold cid_beq
  cases pfx <;> simp [iden_beq_refl]

lemma iden_beq_symm (a b : Identifier) : iden_beq a b = iden_beq b a := by
  cases a <;> cases b <;> simp only [iden_beq] <;>
    first
    | rfl
    | · rename_i s t
        cases hs : s.data.map latin1_low == t.data.map latin1_low with
        | true =>
          have := eq_of_beq hs
          rw [this]
          simp
        | false =>
          cases ht : t.data.map latin1_low == s.data.map latin1_low with
          | true =>
            have := eq_of_beq ht
            rw [this] at hs
            simp at hs
          | false => rfl
    | · rename_i s t
        cases hs : s == t with
        | true =>
          have := eq_of_beq hs
          rw [this]
          simp
        | false =>
          cases ht : t == s with
          | true =>
            have := eq_of_beq ht
            rw [this] at hs
            simp at hs
          | false => rfl

lemma cid_beq_symm (a b : CompoundIdentifier) : cid_beq a b = cid_beq b a := by
  obtain ⟨pa, sa⟩ := a
  obtain ⟨pb, sb⟩ := b
  unfold cid_beq
  cases pa <;> cases pb
  · dsimp only
    rw [iden_beq_symm sa sb]
  · dsimp only
    rw [iden_beq_symm sa sb]
  · dsimp only
    rw [iden_beq_symm sa sb]
  · dsimp only
    rw [iden_beq_symm sa sb, iden_beq_symm]

lemma key_index_aux_shift {α : Type} (l : List (CompoundIdentifier × α))
    (k : CompoundIdentifier) :
    ∀ a, key_index_aux l k a = (key_index_aux l k 0).map (· + a) := by
  induction l with
  | nil => intro a; simp [key_index_aux]
  | cons p rest ih =>
    intro a
    unfold key_index_aux
    by_cases hb : cid_beq p.1 k
    · simp [hb]
    · rw [if_neg hb, if_neg hb, ih (a + 1), ih 1]
      cases key_index_aux rest k 0 with
      | none => rfl
      | some i => simp; omega

lemma get_node_by_key_of_mem {α : Type} :
    ∀ (l : List (CompoundIdentifier × α)) (k : CompoundIdentifier) (v : α),
      keys_nodup l = true → (k, v) ∈ l →
      ∃ i, key_index_aux l k 0 = some i ∧ l[i]? = some (k, v) := by
  intro l
  induction l with
  | nil => intro k v _ hm; simp at hm
  | cons p rest ih =>
    intro k v hnd hm
    have hnd' : keys_nodup rest = true := by
      unfold keys_nodup at hnd
      simp only [Bool.and_eq_true] at hnd
      exact hnd.2
    cases hm with
    | head =>
      refine ⟨0, ?_, by simp⟩
      unfold key_index_aux
      rw [if_pos (cid_beq_refl k)]
    | tail _ hm' =>
      have hne : cid_beq p.1 k = false := by
        unfold keys_nodup at hnd
        simp only [Bool.and_eq_true] at hnd
        have hall := hnd.1
        rw [List.all_eq_true] at hall
        have := hall (k, v) hm'
        simp only [Bool.not_eq_true'] at this
        rw [cid_beq_symm]
        exact this
      obtain ⟨i, hi, hg⟩ := ih k v hnd' hm'
      refine ⟨i + 1, ?_, by simpa using hg⟩
      unfold key_index_aux
      rw [if_neg (by simp [hne]), key_index_aux_shift, hi]
      rfl

lemma graph_get_node_by_key_of_mem {g : GraphMap HdlNode} {k : CompoundIdentifier}
    {v : HdlNode} (hnd : keys_nodup g.items = true) (hm : (k, v) ∈ g.items) :
    ∃ i, g.get_node_by_key k = some (i, v) := by
  obtain ⟨i, hi, hg⟩ := get_node_by_key_of_mem g.items k v hnd hm
  refine ⟨i, ?_⟩
  unfold GraphMap.get_node_by_key GraphMap.key_index
  rw [hi]
  dsimp only
  rw [hg]
  rfl

/-- **C1.**  With neither a user top nor a user bench, selection restricts
the graph to keys whose prefix is the working library and inspects the
in-degree-zero roots of the restriction: no root leaves both unset; a
unique root that is a testbench entity becomes the bench (top unset), a
unique non-testbench entity root becomes the natural top (bench unset), a
unique non-entity root leaves both unset; two or more roots fail with
`Ambiguous("roots", candidates)` listing the roots' unit names. -/
theorem claim_C1_natural_selection (g : GraphMap HdlNode)
    (hnd : keys_nodup g.items = true) :
    ((g.restrict (working_filter working_lib)).root_indices = [] →
       detect_bench none none g working_lib = .ok (none, none)) ∧
    (∀ r k nd, (g.restrict (working_filter working_lib)).root_indices = [r] →
       (g.restrict (working_filter working_lib)).items[r]? = some (k, nd) →
       ∃ i, g.get_node_by_key k = some (i, nd) ∧
         (∀ e, nd.sym = .entity e →
            detect_bench none none g working_lib =
              .ok (if e.is_testbench then ((none : Option Nat), some i)
                   else (some i, none))) ∧
         (nd.sym.as_entity = none →
            detect_bench none none g working_lib = .ok (none, none))) ∧
    (∀ r1 r2 rest, (g.restrict (working_filter working_lib)).root_indices = r1 :: r2 :: rest →
       detect_bench none none g working_lib =
         .err (.Ambiguous "roots" ((r1 :: r2 :: rest).filterMap
           (fun r => ((g.restrict (working_filter working_lib)).node_at r).map
             (fun nd => nd.sym.as_iden))))) := by
  refine ⟨?_, ?_, ?_⟩
  · intro h
    have hfr : (g.restrict (working_filter working_lib)).find_root = .error [] := by
      unfold GraphMap.find_root
      rw [h]
    unfold detect_bench
    dsimp only
    rw [hfr]
    rfl
  · intro r k nd hr hi
    have hmem : (k, nd) ∈ (g.restrict (working_filter working_lib)).items := by
      exact List.getElem?_mem hi
    have hmemg : (k, nd) ∈ g.items := by
      have : (g.restrict (working_filter working_lib)).items =
          g.items.filter (fun q => working_filter working_lib q.1) := rfl
      rw [this] at hmem
      exact List.mem_of_mem_filter hmem
    obtain ⟨i, hkey⟩ := graph_get_node_by_key_of_mem hnd hmemg
    refine ⟨i, hkey, ?_, ?_⟩
    · intro e he
      have hfr : (g.restrict (working_filter working_lib)).find_root = .ok r := by
        unfold GraphMap.find_root
        rw [hr]
      unfold detect_bench
      dsimp only
      rw [hfr]
      have hka : (g.restrict (working_filter working_lib)).key_at r = some k := by
        unfold GraphMap.key_at
        rw [hi]
        rfl
      dsimp only
      rw [hka]
      dsimp only
      rw [hkey]
      dsimp only
      rw [he]
      cases htb : e.is_testbench with
      | true => simp [PrimaryUnit.as_entity, htb]
      | false => simp [PrimaryUnit.as_entity, htb]
    · intro hne
      have hfr : (g.restrict (working_filter working_lib)).find_root = .ok r := by
        unfold GraphMap.find_root
        rw [hr]
      unfold detect_bench
      dsimp only
      rw [hfr]
      have hka : (g.restrict (working_filter working_lib)).key_at r = some k := by
        unfold GraphMap.key_at
        rw [hi]
        rfl
      dsimp only
      rw [hka]
      dsimp only
      rw [hkey]
      dsimp only
      rw [hne]
      rfl
  · intro r1 r2 rest hr
    have hfr : (g.restrict (working_filter working_lib)).find_root =
        .error (r1 :: r2 :: rest) := by
      unfold GraphMap.find_root
      rw [hr]
    unfold detect_bench
    dsimp only
    rw [hfr]
    rfl

end Plan

namespace Plan

/-- **C8 (amended).**  With a valid non-testbench user top `t` and no bench
chosen in Step A, the selector scans the successors of `t` for testbench
entities — but it *unwraps* each successor's symbol as an entity, so a
successor that is not an entity makes the scan panic rather than being
excluded; when the scan completes, zero matches leave bench unset, exactly
one is adopted, and several fail with `Ambiguous("testbenches",
candidates)`. -/
theorem claim_C8_bench_scan (g : GraphMap HdlNode) (t : Identifier) (n : Nat)
    (nd : HdlNode) (e : Entity) (nt : Option Nat)
    (h1 : g.get_node_by_key ⟨some working_lib, t⟩ = some (n, nd))
    (h2 : nd.sym.as_entity = some e) (h3 : e.is_testbench = false) :
    (scan_benches g (g.successors_list n) = none →
       detect_top (some t) g working_lib nt none = .panicked) ∧
    (scan_benches g (g.successors_list n) = some [] →
       detect_top (some t) g working_lib nt none = .ok (some n, none)) ∧
    (∀ b, scan_benches g (g.successors_list n) = some [b] →
       detect_top (some t) g working_lib nt none = .ok (some n, some b)) ∧
    (∀ b1 b2 bs, scan_benches g (g.successors_list n) = some (b1 :: b2 :: bs) →
       detect_top (some t) g working_lib nt none =
         .err (.Ambiguous "testbenches" ((b1 :: b2 :: bs).filterMap
           (fun f => (g.key_at f).map (·.sfx))))) := by
  have hbase : ∀ res, scan_benches g (g.successors_list n) = res →
      detect_top (some t) g working_lib nt none =
        (match res with
         | none => .panicked
         | some [] => .ok (some n, none)
         | some [b] => .ok (some n, some b)
         | some benches =>
           .err (.Ambiguous "testbenches"
             (benches.filterMap (fun f => (g.key_at f).map (·.sfx))))) := by
    intro res hres
    unfold detect_top
    dsimp only
    rw [h1]
    dsimp only
    rw [h2]
    dsimp only
    rw [h3]
    rw [hres]
    cases res with
    | none => rfl
    | some benches =>
      cases benches with
      | nil => rfl
      | cons b bs =>
        cases bs with
        | nil => rfl
        | cons b2 bs2 => rfl
  exact ⟨fun h => hbase none h, fun h => hbase (some []) h,
         fun b h => hbase (some [b]) h,
         fun b1 b2 bs h => hbase (some (b1 :: b2 :: bs)) h⟩

/-- The nor-gate-style sample project: an entity `fa` with ports and a
testbench `fa_tb` without ports whose architecture instantiates `fa` as a
component. -/
def fa_entity : Entity := ⟨.Basic "fa", [.Basic "a", .Basic "b"], []⟩

/-- The sample testbench entity (empty port list). -/
def fa_tb_entity : Entity := ⟨.Basic "fa_tb", [], []⟩

/-- The sample RTL file. -/
def dut_file : IpFileNode := ⟨"/p/dut.vhd", .Basic "work", false⟩

/-- The sample simulation file. -/
def tb_file : IpFileNode := ⟨"/p/fa_tb.vhd", .Basic "work", true⟩

/-- The sample file list (S2 of the spec). -/
def sample_files : List SourceFile :=
  [⟨dut_file, [.Entity fa_entity, .Architecture ⟨.Basic "fa", [], []⟩]⟩,
   ⟨tb_file, [.Entity fa_tb_entity, .Architecture ⟨.Basic "fa_tb", [⟨none, .Basic "fa"⟩], []⟩]⟩]

/-- The sample HDL graph (two nodes, one edge `fa → fa_tb`). -/
def sample_graph : GraphMap HdlNode := build_full_graph sample_files

/-- The `fa_tb` node of the sample graph. -/
def sample_tb_node : HdlNode := ⟨.entity fa_tb_entity, [tb_file]⟩

/-- The successful plan of the sample graph (top `fa`, bench `fa_tb`). -/
def sample_out : PlanOutput :=
  ⟨some 0, some 1, [0, 1], [dut_file, tb_file],
   ["VHDL-RTL\twork\t/p/dut.vhd\n", "VHDL-SIM\twork\t/p/fa_tb.vhd\n"]⟩

/-- A project whose only design unit lives outside the working library. -/
def foreign_graph : GraphMap HdlNode :=
  build_full_graph [⟨⟨"/x.vhd", .Basic "other", false⟩, [.Entity fa_entity]⟩]

/-- A project with a non-testbench entity `t` and a package `p` that
references `t` (so the package is a successor of `t` in the HDL graph). -/
def pkg_succ_graph : GraphMap HdlNode :=
  build_full_graph
    [⟨⟨"/t.vhd", .Basic "work", false⟩, [.Entity ⟨.Basic "t", [.Basic "x"], []⟩]⟩,
     ⟨⟨"/p.vhd", .Basic "work", false⟩,
      [.Package (.Basic "p") [⟨some (.Basic "work"), .Basic "t"⟩]]⟩]

/-- **C8, counterexample.**  The claim states that a successor that is not
an entity is simply excluded without failing the scan.  In `pkg_succ_graph`
the sole successor of the chosen top `t` is the package `p`; the scan
panics (`as_entity().unwrap()`) instead of excluding it and leaving bench
unset. -/
theorem claim_C8_counterexample :
    detect_top (some (.Basic "t")) pkg_succ_graph working_lib none none = .panicked ∧
    pkg_succ_graph.successors_list 0 = [1] ∧
    (pkg_succ_graph.node_at 1).map (fun nd => nd.sym.as_entity) = some none := by
  exact ⟨rfl, rfl, rfl⟩

/-- **C8, witness** for the amended theorem's hypotheses: in the sample
graph the sole successor of top `fa` is the testbench entity `fa_tb`, and
the scan adopts it. -/
theorem claim_C8_bench_scan_witness :
    detect_top (some (.Basic "fa")) sample_graph working_lib none none =
      .ok (some 0, some 1) :=
  (claim_C8_bench_scan sample_graph (.Basic "fa") 0 ⟨.entity fa_entity, [dut_file]⟩
    fa_entity none rfl rfl rfl).2.2.1 1 rfl

end Plan

namespace Plan

/-- **C1, witness**: in the sample graph (whole graph in the working
library), the unique root is the testbench `fa_tb`, and natural selection
sets bench to it with top unset. -/
theorem claim_C1_natural_selection_witness :
    detect_bench none none sample_graph working_lib = .ok (none, some 1) := by
  obtain ⟨i, hkey, hcase⟩ :=
    (claim_C1_natural_selection sample_graph rfl).2.1 1
      ⟨some (.Basic "work"), .Basic "fa_tb"⟩ sample_tb_node rfl rfl
  have h := hcase.1 fa_tb_entity rfl
  have h2 : sample_graph.get_node_by_key ⟨some (.Basic "work"), .Basic "fa_tb"⟩ =
      some (1, sample_tb_node) := rfl
  have h4 : (1, sample_tb_node) = (i, sample_tb_node) := by
    injection h2.symm.trans hkey
  have hi : 1 = i := congrArg Prod.fst h4
  rw [← hi] at h
  simpa [fa_tb_entity, Entity.is_testbench] using h

/-- **C3, witness**: the sample plan's blueprint lines are the flattened
per-node file lines of the minimal order seeded from the bench. -/
theorem claim_C3_blueprint_lines_witness :
    sample_out.lines = sample_out.order.flatMap
      (fun i => (node_files sample_graph i).map blueprint_line) ∧
    sample_out.order = (if false then sample_graph.topological_sort
      else sample_graph.minimal_topological_sort
        (((sample_out.bench).or sample_out.top).getD 0)) :=
  claim_C3_blueprint_lines sample_graph none none false sample_out rfl

/-- **C5, witness**: in the sample graph the bench (index 1) is a successor
of the top (index 0), so emission proceeds past the cross-check. -/
theorem claim_C5_cross_check_witness :
    ∃ out, emit_phase sample_graph (some 0) (some 1) false = .ok out :=
  (claim_C5_cross_check sample_graph 0 1).2.2 rfl

/-- **C9, witness**: a project with no working-library design unit panics
on the unchecked unwrap, and the successful sample plan indeed has a top
or bench resolved. -/
theorem claim_C9_unwrap_panic_witness :
    plan_run foreign_graph none none false = .panicked ∧
    (sample_out.top.isSome ∨ sample_out.bench.isSome) :=
  ⟨claim_C9_unwrap_panic.2 foreign_graph rfl,
   claim_C9_unwrap_panic.1 sample_graph none none sample_out rfl⟩

end Plan
